import Mathlib

/-! # placetime-datastore: timeline distribution and ranking engine

A shallow embedding of `store.go` (with the record types of `item.go`).

* Go's `int64` arithmetic is modelled on `Int` with an explicit wrap-around
  (`wrap64`); `/` on integers is Go's truncated division (`Int.tdiv`).
* `time.Time` is a pair of whole seconds and a nanosecond remainder;
  `time.Now()` is an argument of every operation that reads the clock.
* A Redis database is a total map from keys to values, a missing sorted set
  being the empty one.  A sorted set is an association list of
  `(member, score)`; scores are kept as the exact integers handed to `ZADD`
  (the conversion to `float64` done by the server is not modelled).  Where
  the source itself converts an `int64` and a property depends on it, the
  conversion is `float64`, the nearest double, which is again an integer.
* Every store command of a call may fail: the call receives a fault oracle
  `down : Nat → Bool`, and the `n`-th command the call issues fails (its reply
  is not `IsOK()`, it has no effect) iff `down n`.
-/

namespace Datastore

/-! ## Machine integers and time -/

/-- Two's-complement wrap-around of Go's `int64`. -/
def wrap64 (x : Int) : Int :=
  (x + 9223372036854775808) % 18446744073709551616 - 9223372036854775808

/-- The values an `int64` can hold. -/
def isInt64 (x : Int) : Prop :=
  -9223372036854775808 ≤ x ∧ x < 9223372036854775808

instance (x : Int) : Decidable (isInt64 x) := by
  unfold isInt64; infer_instance

/-- A `time.Time`: whole seconds since the Unix epoch and the nanosecond
within that second. -/
structure Time where
  sec : Int
  nsec : Nat
  nsec_lt : nsec < 1000000000

/-- Go's `t.Unix()`. -/
def Time.Unix (t : Time) : Int := t.sec

/-- Go's `t.UnixNano()`: seconds times `1e9` plus nanoseconds, in `int64`. -/
def Time.UnixNano (t : Time) : Int := wrap64 (t.sec * 1000000000 + t.nsec)

/-- The distance between neighbouring `float64` values at a magnitude below
`2^64`: one up to `2^53`, doubling with every further binary digit. -/
def ulp64 (a : Nat) : Nat :=
  if a < 9007199254740992 then 1
  else if a < 18014398509481984 then 2
  else if a < 36028797018963968 then 4
  else if a < 72057594037927936 then 8
  else if a < 144115188075855872 then 16
  else if a < 288230376151711744 then 32
  else if a < 576460752303423488 then 64
  else if a < 1152921504606846976 then 128
  else if a < 2305843009213693952 then 256
  else if a < 4611686018427387904 then 512
  else if a < 9223372036854775808 then 1024
  else 2048

/-- Go's conversion `float64(x)` of an `int64`: the nearest double, a tie going
to the even mantissa.  The double of an integer of this size is an integer,
and it is kept as that. -/
def float64 (x : Int) : Int :=
  let a := x.natAbs
  let u := ulp64 a
  let q := a / u
  let r := a % u
  let m := if 2 * r > u ∨ (2 * r = u ∧ q % 2 = 1) then (q + 1) * u else q * u
  if x < 0 then -(m : Int) else (m : Int)

/-! ## Scores (`store.go` lines 93-105) -/

/-- Source function `itemScore`: the integer that is converted to `float64`. -/
def itemScore (t : Time) : Int := t.UnixNano

/-- The `int64` that `eventedItemScore` converts at line 100:
`ets.Unix()*1000000000 + nanos`. -/
def eventedItemNanos (t : Time) (ets : Time) : Int :=
  let nanos := wrap64 (t.UnixNano - wrap64 (1000000000 * Int.tdiv t.UnixNano 1000000000))
  wrap64 (wrap64 (ets.Unix * 1000000000) + nanos)

/-- Source function `eventedItemScore`: the `float64` of that integer. -/
def eventedItemScore (t : Time) (ets : Time) : Int :=
  float64 (eventedItemNanos t ets)

/-- Source function `followerScore`: the integer that is converted to `float64`. -/
def followerScore (t : Time) : Int := t.UnixNano

/-! ## Keys (`store.go` lines 16-161) -/

def ITEMS_NEEDING_IMAGES : String := "itemsneedingimages"

def ORDERING_TS : String := "ts"

def EVENTED_ITEM_PREFIX : Char := '+'

def possiblyKey (pid : String) (ordering : String) : String :=
  pid ++ ":possibly:" ++ ordering

def maybeKey (pid : String) (ordering : String) : String :=
  pid ++ ":maybe:" ++ ordering

def followingKey (pid : String) : String := pid ++ ":following"

def followersKey (pid : String) : String := pid ++ ":followers"

def itemSeqKey (pid : String) : String := pid ++ ":itemseq"

def itemId (pid : String) (seq : Int) : String := pid ++ "-" ++ toString seq

def itemKey (itemid : String) : String := "item:" ++ itemid

def eventedItemKey (itemid : String) : String :=
  String.singleton EVENTED_ITEM_PREFIX ++ itemKey itemid

/-! ## Records (`item.go`) -/

/-- The `Item` record of `item.go`. -/
structure Item where
  Id : String
  Added : Int
  Event : Int
  Pid : String
  PName : String
  Text : String
  Link : String
  Media : String
  Image : String
  Duration : Int
deriving DecidableEq, Repr

/-- The zero value of `Item`, what `&Item{}` holds. -/
def Item.zero : Item :=
  { Id := "", Added := 0, Event := 0, Pid := "", PName := "", Text := "", Link := "",
    Media := "", Image := "", Duration := 0 }

/-- Source function `Item.IsEvent`. -/
def Item.IsEvent (i : Item) : Bool := decide (i.Event > 0)

/-- Source function `Item.DefaultScheduledTime`. -/
def Item.DefaultScheduledTime (i : Item) : Int :=
  if i.Event > 0 then i.Event else i.Added

/-- The `FormattedItem` record of `item.go`: an `Item` with a presentation
score and a source.  The `Author` and `Via` pointers are never set by the code
modelled here and are left out. -/
structure FormattedItem extends Item where
  Ts : Int
  Source : String
deriving DecidableEq, Repr

/-! ## The store -/

/-- Why a store command or an operation failed. -/
inductive Err where
  | storeUnavailable
  | notFound
  | notInteger
deriving DecidableEq, Repr

/-- A value of the item database, by what `json.Unmarshal` makes of it: the
JSON encoding of an item; an integer (a sequence counter), on which decoding
into an item fails with nothing filled in; or any other byte string on which
decoding fails, together with the item decoding leaves behind when it returns
its error (`decoded`: the zero item for bytes that are not JSON, the fields
that could be decoded for an object with a field of the wrong type). -/
inductive Value where
  | item (i : Item)
  | int (n : Int)
  | raw (bytes : String) (decoded : Item)
deriving DecidableEq, Repr

/-- What `json.Unmarshal` leaves in a zero `Item` when its error is discarded. -/
def Value.toItem : Value → Item
  | .item i => i
  | .int _ => Item.zero
  | .raw _ decoded => decoded

/-- A Redis sorted set: members with their scores. -/
abbrev ZSet := List (String × Int)

/-- Redis `ZSCORE`: the score of a member, if it is in the set. -/
def zscore : ZSet → String → Option Int
  | [], _ => none
  | (k, v) :: rest, m => if k = m then some v else zscore rest m

/-- Redis `ZADD key score member`: insert, or overwrite the score of, one member. -/
def zadd (z : ZSet) (score : Int) (member : String) : ZSet :=
  (member, score) :: z.filter (fun e => e.1 ≠ member)

/-- Redis `ZREM key member`. -/
def zrem (z : ZSet) (member : String) : ZSet :=
  z.filter (fun e => e.1 ≠ member)

/-- Redis `ZUNIONSTORE dst 2 a b WEIGHTS 1 1 AGGREGATE MAX`: the value stored at `dst`. -/
def zunionMax (a b : ZSet) : ZSet :=
  a.map (fun e => (e.1, match zscore b e.1 with
    | some t => max e.2 t
    | none => e.2))
  ++ b.filter (fun e => (zscore a e.1).isNone)

/-- The order of a sorted set: by score, members of equal score by their
characters. -/
def zle (a b : String × Int) : Prop :=
  a.2 < b.2 ∨ (a.2 = b.2 ∧ a.1.data ≤ b.1.data)

instance : DecidableRel zle := fun a b => by
  unfold zle; infer_instance

/-- The entries of a sorted set in ascending order. -/
def zsorted (z : ZSet) : ZSet := z.insertionSort zle

/-- Redis `ZRANGE key 0 MaxInt`: all members, ascending. -/
def zrange (z : ZSet) : List String := (zsorted z).map Prod.fst

/-- Redis `LIMIT 0 count`: a negative count returns everything. -/
def limit {α : Type} (count : Int) (l : List α) : List α :=
  if count < 0 then l else l.take count.toNat

/-- Redis `ZRANGEBYSCORE key min +Inf WITHSCORES LIMIT 0 count`. -/
def zrangebyscore (z : ZSet) (min : Int) (count : Int) : List (String × Int) :=
  limit count ((zsorted z).filter (fun e => min ≤ e.2))

/-- Redis `ZREVRANGEBYSCORE key max -Inf WITHSCORES LIMIT 0 count`; `exclusive` is
the `(` in front of `max`. -/
def zrevrangebyscore (z : ZSet) (max : Int) (exclusive : Bool) (count : Int) :
    List (String × Int) :=
  limit count ((zsorted z).reverse.filter
    (fun e => if exclusive then e.2 < max else e.2 ≤ max))

/-- The databases behind a `RedisStore`: timelines (`tdb`), item bodies and
sequence counters (`idb`), and of the profile database (`pdb`) its sorted sets
(the follow indices) and its unordered sets.  Profile hashes and the session
database are outside the operations modelled here. -/
structure RedisStore where
  tdb : String → ZSet
  idb : String → Option Value
  pdb : String → ZSet
  pdbSets : String → List String

/-- The effect of `ZADD key score member` on the timeline database. -/
def RedisStore.tZADD (s : RedisStore) (key : String) (score : Int) (member : String) :
    RedisStore :=
  { s with tdb := Function.update s.tdb key (zadd (s.tdb key) score member) }

/-- The effect of `ZREM key member` on the timeline database. -/
def RedisStore.tZREM (s : RedisStore) (key : String) (member : String) : RedisStore :=
  { s with tdb := Function.update s.tdb key (zrem (s.tdb key) member) }

/-- The effect of `ZADD key score member` on the profile database. -/
def RedisStore.pZADD (s : RedisStore) (key : String) (score : Int) (member : String) :
    RedisStore :=
  { s with pdb := Function.update s.pdb key (zadd (s.pdb key) score member) }

/-- The effect of `ZREM key member` on the profile database. -/
def RedisStore.pZREM (s : RedisStore) (key : String) (member : String) : RedisStore :=
  { s with pdb := Function.update s.pdb key (zrem (s.pdb key) member) }

/-- The effect of `SADD key member` on the profile database. -/
def RedisStore.pSADD (s : RedisStore) (key : String) (member : String) : RedisStore :=
  let members := s.pdbSets key
  { s with pdbSets :=
      Function.update s.pdbSets key (if member ∈ members then members else member :: members) }

/-- The effect and reply of `INCR key` on the item database: a missing key
counts from zero, a value that is not an integer (or would overflow) is an
error. -/
def INCR (idb : String → Option Value) (key : String) :
    Except Err ((String → Option Value) × Int) :=
  match idb key with
  | none => .ok (Function.update idb key (some (.int 1)), 1)
  | some (.int n) =>
    if n + 1 < 9223372036854775808 then
      .ok (Function.update idb key (some (.int (n + 1))), n + 1)
    else .error .notInteger
  | some _ => .error .notInteger

/-- Modelled from the spec: the reply of the Redis client, which is not part
of the sources, to `GET key` on the item database.  A missing key is answered
with an error, as a failed command is: the specification has `Get` fail with
`NotFound` if the item is absent, and `TimelineRange` logs such a reply as
"Could not get key".  `down` says the command itself failed. -/
def RedisStore.GET (s : RedisStore) (down : Bool) (key : String) : Except Err Value :=
  if down then .error .storeUnavailable
  else match s.idb key with
    | none => .error .notFound
    | some v => .ok v

/-! ## Items (`store.go` lines 531-660) -/

/-- Source function `RedisStore.ItemExists`: the reply of `EXISTS`, or `false`
with the error. -/
def RedisStore.ItemExists (s : RedisStore) (down : Bool) (id : String) : Bool × Option Err :=
  if down then (false, some .storeUnavailable)
  else ((s.idb (itemKey id)).isSome, none)

/-- Source function `RedisStore.Item`: the body under `itemKey(id)`; the error
of `json.Unmarshal` is discarded. -/
def RedisStore.Item (s : RedisStore) (down : Bool) (id : String) : Except Err Datastore.Item :=
  match s.GET down (itemKey id) with
  | .error e => .error e
  | .ok v => .ok v.toItem

/-- Source function `RedisStore.UpdateItem`: overwrite the body. -/
def RedisStore.UpdateItem (s : RedisStore) (down : Bool) (item : Datastore.Item) :
    RedisStore × Option Err :=
  if down then (s, some .storeUnavailable)
  else ({ s with idb := Function.update s.idb (itemKey item.Id) (some (.item item)) }, none)

/-- The entry pair of an item written to one timeline (lines 595-605 for the
author, 613-623 for a follower): the default entry at `item.Added`, then the
evented entry at `item.Event` when `isEvent`.  `n` is the number of commands
the call has issued so far; the result carries the new count. -/
def writeEntries (s : RedisStore) (down : Nat → Bool) (n : Nat) (key : String)
    (item : Item) (isEvent : Bool) (itemKey eventedItemKey : String) :
    RedisStore × Nat × Option Err :=
  if down n then (s, n + 1, some .storeUnavailable)
  else
    let s1 := s.tZADD key item.Added itemKey
    if isEvent then
      if down (n + 1) then (s1, n + 2, some .storeUnavailable)
      else (s1.tZADD key item.Event eventedItemKey, n + 2, none)
    else (s1, n + 1, none)

/-- The fan-out loop of `AddItem` (lines 612-624) over the followers read
from the profile database. -/
def fanOut (down : Nat → Bool) (item : Item) (isEvent : Bool)
    (itemKey eventedItemKey : String) :
    List String → RedisStore → Nat → RedisStore × Nat × Option Err
  | [], s, n => (s, n, none)
  | followerpid :: rest, s, n =>
    match writeEntries s down n (possiblyKey followerpid ORDERING_TS) item isEvent
        itemKey eventedItemKey with
    | (s1, n1, none) => fanOut down item isEvent itemKey eventedItemKey rest s1 n1
    | (s1, n1, some e) => (s1, n1, some e)

/-- Lines 585-633 of `AddItem`: the writes, once the item is built; `n`
commands have been issued before.  `json.Marshal` of an `Item` cannot fail. -/
def addItemWrites (s : RedisStore) (down : Nat → Bool) (n : Nat) (pid : String)
    (item : Item) (isEvent : Bool) (itemid : String) : RedisStore × String × Option Err :=
  let itemKey := itemKey itemid
  let eventedItemKey := eventedItemKey itemid
  if down n then (s, "", some .storeUnavailable)
  else
    let s1 : RedisStore := { s with idb := Function.update s.idb itemKey (some (.item item)) }
    match writeEntries s1 down (n + 1) (maybeKey pid ORDERING_TS) item isEvent
        itemKey eventedItemKey with
    | (s2, _, some e) => (s2, itemKey, some e)
    | (s2, n2, none) =>
      if down n2 then (s2, itemKey, some .storeUnavailable)
      else
        match fanOut down item isEvent itemKey eventedItemKey
            (zrange (s2.pdb (followersKey pid))) s2 (n2 + 1) with
        | (s3, _, some e) => (s3, itemKey, some e)
        | (s3, n3, none) =>
          if item.Link ≠ "" ∧ item.Image = "" then
            if down n3 then (s3, itemKey, some .storeUnavailable)
            else (s3.pSADD ITEMS_NEEDING_IMAGES itemid, itemKey, none)
          else (s3, itemKey, none)

/-- Lines 557-583 of `AddItem`, once `itemid` is fixed: the existence check and
the item that is built; `n` commands have been issued before. -/
def addItemWithId (s : RedisStore) (down : Nat → Bool) (n : Nat) (now : Time) (pid : String)
    (ets : Time) (text link : String) (itemid : String) : RedisStore × String × Option Err :=
  let itemKey := itemKey itemid
  if (s.ItemExists (down n) itemid).1 then (s, itemKey, none)
  else
    let tsnano := now.UnixNano
    let isEvent := decide (ets.UnixNano > 0)
    let etsnano :=
      if ets.UnixNano > 0 then
        -- Fake the precision for event time
        let nanos := wrap64 (tsnano - wrap64 (1000000000 * Int.tdiv tsnano 1000000000))
        wrap64 (wrap64 (ets.Unix * 1000000000) + nanos)
      else ets.UnixNano
    let item : Item :=
      { Id := itemid, Text := text, Link := link, Pid := pid, Added := tsnano, Event := etsnano,
        PName := "", Media := "", Image := "", Duration := 0 }
    addItemWrites s down (n + 1) pid item isEvent itemid

/-- Source function `RedisStore.AddItem`.  `now` is the reading of `time.Now()`; the result is
the store after the call with the returned key and error.  The `image`
argument is not used by the source either. -/
def RedisStore.AddItem (s : RedisStore) (down : Nat → Bool) (now : Time) (pid : String)
    (ets : Time) (text link image : String) (itemid : String) :
    RedisStore × String × Option Err :=
  if itemid = "" then
    if down 0 then (s, "", some .storeUnavailable)
    else
      match INCR s.idb (itemSeqKey pid) with
      | .error e => (s, "", some e)
      | .ok (idb, seq) =>
        addItemWithId { s with idb := idb } down 1 now pid ets text link (itemId pid seq)
  else addItemWithId s down 0 now pid ets text link itemid

/-! ## The follow graph (`store.go` lines 695-743) -/

/-- Source function `RedisStore.Follow`. -/
def RedisStore.Follow (s : RedisStore) (down : Nat → Bool) (now : Time)
    (pid followpid : String) : RedisStore × Option Err :=
  let score := followerScore now
  if down 0 then (s, some .storeUnavailable)
  else
    let s1 := s.pZADD (followingKey pid) score followpid
    if down 1 then (s1, some .storeUnavailable)
    else
      let s2 := s1.pZADD (followersKey followpid) score pid
      let poss_ts := possiblyKey pid ORDERING_TS
      let maybe_ts := maybeKey followpid ORDERING_TS
      if down 2 then (s2, some .storeUnavailable)
      else
        ({ s2 with tdb :=
            Function.update s2.tdb poss_ts (zunionMax (s2.tdb poss_ts) (s2.tdb maybe_ts)) },
          none)

/-- The clean-up loop of `Unfollow` (lines 738-740): the reply of each `ZREM`
is discarded. -/
def unfollowLoop (down : Nat → Bool) (poss_ts : String) :
    List String → RedisStore → Nat → RedisStore
  | [], s, _ => s
  | item :: rest, s, n =>
    unfollowLoop down poss_ts rest (if down n then s else s.tZREM poss_ts item) (n + 1)

/-- Source function `RedisStore.Unfollow`. -/
def RedisStore.Unfollow (s : RedisStore) (down : Nat → Bool) (pid followpid : String) :
    RedisStore × Option Err :=
  if down 0 then (s, some .storeUnavailable)
  else
    let s1 := s.pZREM (followingKey pid) followpid
    if down 1 then (s1, some .storeUnavailable)
    else
      let s2 := s1.pZREM (followersKey followpid) pid
      if down 2 then (s2, some .storeUnavailable)
      else
        let poss_ts := possiblyKey pid ORDERING_TS
        let items := zrange (s2.tdb (maybeKey followpid ORDERING_TS))
        (unfollowLoop down poss_ts items s2 3, none)

/-! ## Tier transitions (`store.go` lines 745-832) -/

/-- Source function `RedisStore.Promote`.  The replies of the two `ZREM` are ignored by the
source ("Ignore error"). -/
def RedisStore.Promote (s : RedisStore) (down : Nat → Bool) (now : Time) (pid id : String) :
    RedisStore × Option Err :=
  let poss_key := possiblyKey pid ORDERING_TS
  let itemKey := itemKey id
  let s1 := if down 0 then s else s.tZREM poss_key itemKey
  let eventedItemKey := eventedItemKey id
  let s2 := if down 1 then s1 else s1.tZREM poss_key eventedItemKey
  let tsnano := now.UnixNano
  let maybe_key := maybeKey pid ORDERING_TS
  if down 2 then (s2, some .storeUnavailable)
  else
    let s3 := s2.tZADD maybe_key tsnano itemKey
    match s3.Item (down 3) id with
    | .error e => (s3, some e)
    | .ok item =>
      if item.Event > 0 then
        if down 4 then (s3, some .storeUnavailable)
        else (s3.tZADD maybe_key item.Event eventedItemKey, none)
      else (s3, none)

/-- Source function `RedisStore.Demote`. -/
def RedisStore.Demote (s : RedisStore) (down : Nat → Bool) (now : Time) (pid id : String) :
    RedisStore × Option Err :=
  let itemKey := itemKey id
  let eventedItemKey := eventedItemKey id
  let maybe_key := maybeKey pid ORDERING_TS
  if down 0 then (s, some .storeUnavailable)
  else
    let s1 := s.tZREM maybe_key itemKey
    if down 1 then (s1, some .storeUnavailable)
    else
      let s2 := s1.tZREM maybe_key eventedItemKey
      let tsnano := now.UnixNano
      let poss_key := possiblyKey pid ORDERING_TS
      if down 2 then (s2, some .storeUnavailable)
      else
        let s3 := s2.tZADD poss_key tsnano itemKey
        match s3.Item (down 3) id with
        | .error e => (s3, some e)
        | .ok item =>
          if item.Event > 0 then
            if down 4 then (s3, some .storeUnavailable)
            else (s3.tZADD poss_key item.Event eventedItemKey, none)
          else (s3, none)

/-! ## Range queries (`store.go` lines 440-529) -/

/-- Lines 497-499: a key that starts with the evented marker loses it. -/
def stripEventedPrefix (key : String) : String :=
  match key.data with
  | c :: rest => if c = EVENTED_ITEM_PREFIX then String.mk rest else key
  | [] => key

/-- Lines 509-525: the body decoded into a `FormattedItem` (a decoding error
is discarded), `Ts` set to the entry's score, `Added` and `Event` in seconds. -/
def formatItem (item_info : Value) (score : Int) : FormattedItem :=
  let item := item_info.toItem
  { item with
    Ts := score
    Source := ""
    Added := Int.tdiv item.Added 1000000000
    Event := Int.tdiv item.Event 1000000000 }

/-- The loop of lines 492-527 over the `(key, score)` pairs: an entry whose
body cannot be read is skipped. -/
def formatItems (s : RedisStore) (down : Nat → Bool) :
    List (String × Int) → Nat → List FormattedItem
  | [], _ => []
  | (key, score) :: rest, n =>
    match s.GET (down n) (stripEventedPrefix key) with
    | .error _ => formatItems s down rest (n + 1)
    | .ok item_info => formatItem item_info score :: formatItems s down rest (n + 1)

/-- Source function `RedisStore.TimelineRange`.  The reply of a range command
is kept as a list of `(member, score)` pairs.  On an error the result is `nil`. -/
def RedisStore.TimelineRange (s : RedisStore) (down : Nat → Bool) (pid : String)
    (status : String) (ts : Time) (before : Int) (after : Int) :
    List FormattedItem × Option Err :=
  let score := itemScore ts
  let key := if status = "p" then possiblyKey pid "ts" else maybeKey pid "ts"
  if after > 0 ∧ down 0 then ([], some .storeUnavailable)
  else
    let vals := if after > 0 then zrangebyscore (s.tdb key) score after else []
    let n := if after > 0 then 1 else 0
    let itemkeys := vals.reverse
    -- Don't include duplicate item
    let exclusive := decide (vals.length > 0)
    if down n then ([], some .storeUnavailable)
    else
      let vals2 := zrevrangebyscore (s.tdb key) score exclusive (before + 1)
      let itemkeys := itemkeys ++ vals2
      (formatItems s down itemkeys (n + 1), none)

/-! ## Vocabulary of the properties -/

/-- A timeline after the entry pair of an item has been written to it: what
the two `ZADD` of `writeEntries` leave. -/
def withEntries (z : ZSet) (item : Item) (isEvent : Bool)
    (itemKey eventedItemKey : String) : ZSet :=
  if isEvent then zadd (zadd z item.Added itemKey) item.Event eventedItemKey
  else zadd z item.Added itemKey

/-- The item `AddItem` builds at lines 565-583 from the reading of the clock
and its arguments (proved below to be the body it stores). -/
def createdItem (now : Time) (pid : String) (ets : Time) (text link itemid : String) : Item :=
  { Id := itemid, Text := text, Link := link, Pid := pid, Added := now.UnixNano,
    Event :=
      if ets.UnixNano > 0 then
        wrap64 (wrap64 (ets.Unix * 1000000000)
          + wrap64 (now.UnixNano - wrap64 (1000000000 * Int.tdiv now.UnixNano 1000000000)))
      else ets.UnixNano,
    PName := "", Media := "", Image := "", Duration := 0 }

/-- The entries of a timeline that belong to the item `id`: its default entry
and its evented entry. -/
def entriesOf (z : ZSet) (id : String) : ZSet :=
  z.filter (fun e => e.1 = itemKey id ∨ e.1 = eventedItemKey id)

/-- Membership in a sorted set. -/
def zmem (z : ZSet) (m : String) : Prop := zscore z m ≠ none

instance (z : ZSet) (m : String) : Decidable (zmem z m) := by
  unfold zmem; infer_instance

/-- FollowEdge symmetry: `y` is in the following index of `x` exactly when `x`
is in the followers index of `y`. -/
def FollowSymmetric (s : RedisStore) : Prop :=
  ∀ x y, zmem (s.pdb (followingKey x)) y ↔ zmem (s.pdb (followersKey y)) x

/-- Referential integrity of evented entries: an evented entry in a timeline
belongs to an item whose body is stored. -/
def EventedEntriesResolve (s : RedisStore) : Prop :=
  ∀ k id, zmem (s.tdb k) (eventedItemKey id) → s.idb (itemKey id) ≠ none

/-- The key `TimelineRange` reads (lines 444-449): the candidate timeline for
the status `p`, the confirmed timeline otherwise. -/
def timelineKey (pid status : String) : String :=
  if status = "p" then possiblyKey pid "ts" else maybeKey pid "ts"

/-- The after-half of the entry list `TimelineRange` assembles (lines 454-469):
the reply of `ZRANGEBYSCORE ... LIMIT 0 after` in reverse, nothing when
`after` is not positive. -/
def afterHalf (z : ZSet) (score : Int) (after : Int) : List (String × Int) :=
  (if after > 0 then zrangebyscore z score after else []).reverse

/-- The before-half of the entry list `TimelineRange` assembles (lines
471-488): the reply of `ZREVRANGEBYSCORE ... LIMIT 0 before+1`, its bound
exclusive when the after-half holds an entry. -/
def beforeHalf (z : ZSet) (score : Int) (before after : Int) : List (String × Int) :=
  zrevrangebyscore z score (decide ((afterHalf z score after).length > 0)) (before + 1)

/-- The entries of a timeline at or above a score, lowest first: what the
after-half is taken from. -/
def atOrAbove (z : ZSet) (score : Int) : List (String × Int) :=
  (zsorted z).filter (fun e => score ≤ e.2)

/-- A sorted set holds a member once. -/
def ZSet.WF (z : ZSet) : Prop := (z.map Prod.fst).Nodup

instance (z : ZSet) : Decidable z.WF := by
  unfold ZSet.WF; infer_instance

/-! ## States used by the examples -/

/-- No fault: every command of the call is answered. -/
def allUp : Nat → Bool := fun _ => false

/-- The fault in which exactly the `k`-th command of the call fails. -/
def failAt (k : Nat) : Nat → Bool := fun n => n == k

/-- An instant: `sec` whole seconds after the epoch. -/
def atSecond (sec : Int) : Time := ⟨sec, 0, by decide⟩

/-- The zero `time.Time` of Go, January 1 of year 1. -/
def zeroTime : Time := ⟨-62135596800, 0, by decide⟩

/-- The empty store. -/
def emptyStore : RedisStore :=
  { tdb := fun _ => [], idb := fun _ => none, pdb := fun _ => [], pdbSets := fun _ => [] }

/-- A store in which the candidate timeline of `u` and the confirmed timeline
of `v` share the item `x`, at different scores, and have one more item each. -/
def overlapping : RedisStore :=
  { emptyStore with
    tdb := fun k =>
      if k = possiblyKey "u" ORDERING_TS then [(itemKey "x", 5), (itemKey "y", 7)]
      else if k = maybeKey "v" ORDERING_TS then [(itemKey "x", 9), (itemKey "z", 3)]
      else [] }

/-- A store with no item and no timeline entry in which `f1` and `f2` follow `a`. -/
def twoFollowers : RedisStore :=
  { tdb := fun _ => []
    idb := fun _ => none
    pdb := fun k =>
      if k = followersKey "a" then [("f1", 1), ("f2", 2)]
      else if k = followingKey "f1" ∨ k = followingKey "f2" then [("a", 1)]
      else []
    pdbSets := fun _ => [] }

/-- The store `twoFollowers` after `a` has created item `x`, with no event, at
second 100, every command answered. -/
def afterCreateX : RedisStore :=
  (twoFollowers.AddItem allUp (atSecond 100) "a" (atSecond 0) "hello" "" "" "x").1

/-- The store `twoFollowers` after a creation of item `x` by `a` in which the
write to the candidate timeline of the second follower failed. -/
def afterPartialFanOut : RedisStore :=
  (twoFollowers.AddItem (failAt 5) (atSecond 100) "a" (atSecond 0) "hello" "" "" "x").1

/-- The store `twoFollowers` after `a` has created item `x` at second 100 for
an event at second 50, every command answered. -/
def afterCreateEvent : RedisStore :=
  (twoFollowers.AddItem allUp (atSecond 100) "a" (atSecond 50) "hello" "" "" "x").1

/-- The store `afterCreateEvent` after the body of `x` was replaced, through
`UpdateItem`, by one with no event. -/
def afterEventCleared : RedisStore :=
  (afterCreateEvent.UpdateItem false
    { Item.zero with Id := "x", Pid := "a", Text := "hello", Added := 100000000000 }).1

/-- The empty store after `a` has created `x` at second 1 and `y` at second 2,
both for an event at second 50. -/
def tiedEvents : RedisStore :=
  ((emptyStore.AddItem allUp (atSecond 1) "a" (atSecond 50) "one" "" "" "x").1.AddItem
    allUp (atSecond 2) "a" (atSecond 50) "two" "" "" "y").1

/-- A store in which the bytes under `itemKey("x")` are not the encoding of an
item. -/
def garbledBody : RedisStore :=
  { emptyStore with
    idb := fun k => if k = itemKey "x" then some (.raw "not json" Item.zero) else none }

/-- A store in which the bytes under `itemKey("x")` are a JSON object whose
`added` is a string: decoding fails on that field and fills in the others. -/
def partlyDecodedBody : RedisStore :=
  { emptyStore with
    idb := fun k =>
      if k = itemKey "x" then
        some (.raw "\x7b\"id\":\"x\",\"added\":\"oops\",\"text\":\"hi\"\x7d"
          { Item.zero with Id := "x", Text := "hi" })
      else none }

/-- An instant `nsec` nanoseconds into second 100. -/
def intoSecond100 (nsec : Nat) (h : nsec < 1000000000) : Time := ⟨100, nsec, h⟩

/-- The empty store after the profile `item` has created its first item with
no explicit id: its sequence counter is stored under `item:itemseq`, the key
of the item id `itemseq`. -/
def counterUnderItemKey : RedisStore :=
  (emptyStore.AddItem allUp (atSecond 1) "item" (atSecond 0) "first" "" "" "").1

/-! # Theorems -/

/-! ## Machine integers -/

theorem wrap64_wrap_add (a b : Int) : wrap64 (wrap64 a + b) = wrap64 (a + b) := by
  unfold wrap64; omega

theorem wrap64_of_isInt64 {x : Int} (h : isInt64 x) : wrap64 x = x := by
  unfold isInt64 at h; unfold wrap64; omega

theorem isInt64_wrap64 (x : Int) : isInt64 (wrap64 x) := by
  unfold isInt64 wrap64; omega

theorem isInt64_UnixNano (t : Time) : isInt64 t.UnixNano := isInt64_wrap64 _

/-- Go's remainder keeps the sign of the dividend and is smaller than a second. -/
theorem tmod_bounds (x : Int) :
    (0 ≤ x → 0 ≤ Int.tmod x 1000000000 ∧ Int.tmod x 1000000000 < 1000000000) ∧
    (x ≤ 0 → -1000000000 < Int.tmod x 1000000000 ∧ Int.tmod x 1000000000 ≤ 0) := by
  constructor
  · intro hx
    exact ⟨Int.tmod_nonneg 1000000000 hx, Int.tmod_lt_of_pos x (by norm_num)⟩
  · intro hx
    obtain ⟨n, rfl⟩ : ∃ n : Nat, x = -(n : Int) := ⟨x.natAbs, by omega⟩
    cases n with
    | zero => simp
    | succ k =>
      have e : (-((k + 1 : Nat) : Int)).tmod 1000000000
          = -(((k + 1) % 1000000000 : Nat) : Int) := rfl
      rw [e]
      have := Nat.mod_lt (k + 1) (by norm_num : 0 < 1000000000)
      omega

/-- The expression `x - 1000000000*(x/1000000000)` of the source is Go's `x % 1000000000`. -/
theorem subsecond_eq_tmod (x : Int) (h : isInt64 x) :
    wrap64 (x - wrap64 (1000000000 * Int.tdiv x 1000000000)) = Int.tmod x 1000000000 := by
  have h1 := Int.tmod_add_tdiv x 1000000000
  have hb := tmod_bounds x
  unfold isInt64 at h; unfold wrap64; omega

theorem eventedItemNanos_eq (t ets : Time) :
    eventedItemNanos t ets
      = wrap64 (ets.Unix * 1000000000 + Int.tmod t.UnixNano 1000000000) := by
  unfold eventedItemNanos
  simp only [subsecond_eq_tmod _ (isInt64_UnixNano t), wrap64_wrap_add]

/-- The conversion to `float64` is exact below `2^53`. -/
theorem float64_exact (x : Int) (h : x.natAbs < 9007199254740992) : float64 x = x := by
  unfold float64 ulp64
  simp only [h, if_true, Nat.div_one, Nat.mod_one, Nat.mul_zero, Nat.mul_one]
  have h1 : ¬ (0 > 1 ∨ (0 = 1 ∧ x.natAbs % 2 = 1)) := by omega
  rw [if_neg h1]
  split <;> omega

/-! ## Keys -/

theorem suffix_clash {x y l1 l2 : List Char} (h : x ++ l1 = y ++ l2) (k : Nat)
    (hk1 : k ≤ l1.length) (hk2 : k ≤ l2.length) :
    l1.reverse.take k = l2.reverse.take k := by
  have h2 := congrArg (fun l => l.reverse.take k) h
  simp only [List.reverse_append] at h2
  rwa [List.take_append_of_le_length (by simpa using hk1),
    List.take_append_of_le_length (by simpa using hk2)] at h2

theorem string_append_right_cancel {a b c : String} (h : a ++ c = b ++ c) : a = b := by
  have h2 := congrArg String.data h
  simp only [String.data_append] at h2
  exact String.ext (List.append_cancel_right h2)

theorem string_append_left_cancel {a b c : String} (h : c ++ a = c ++ b) : a = b := by
  have h2 := congrArg String.data h
  simp only [String.data_append] at h2
  exact String.ext (List.append_cancel_left h2)

theorem possiblyKey_inj {a b : String}
    (h : possiblyKey a ORDERING_TS = possiblyKey b ORDERING_TS) : a = b := by
  unfold possiblyKey at h
  exact string_append_right_cancel (string_append_right_cancel h)

theorem maybeKey_inj {a b : String}
    (h : maybeKey a ORDERING_TS = maybeKey b ORDERING_TS) : a = b := by
  unfold maybeKey at h
  exact string_append_right_cancel (string_append_right_cancel h)

theorem possiblyKey_ne_maybeKey (a b : String) :
    possiblyKey a ORDERING_TS ≠ maybeKey b ORDERING_TS := by
  intro h
  have h2 := congrArg String.data h
  simp only [possiblyKey, maybeKey, String.data_append, List.append_assoc] at h2
  have := suffix_clash h2 4 (by decide) (by decide)
  revert this
  decide

theorem followingKey_inj {a b : String} (h : followingKey a = followingKey b) : a = b :=
  string_append_right_cancel h

theorem followersKey_inj {a b : String} (h : followersKey a = followersKey b) : a = b :=
  string_append_right_cancel h

theorem followingKey_ne_followersKey (a b : String) : followingKey a ≠ followersKey b := by
  intro h
  have h2 := congrArg String.data h
  simp only [followingKey, followersKey, String.data_append] at h2
  have := suffix_clash h2 1 (by decide) (by decide)
  revert this
  decide

theorem itemKey_inj {a b : String} (h : itemKey a = itemKey b) : a = b :=
  string_append_left_cancel h

theorem eventedItemKey_inj {a b : String} (h : eventedItemKey a = eventedItemKey b) : a = b :=
  itemKey_inj (string_append_left_cancel h)

theorem itemKey_ne_eventedItemKey (a b : String) : itemKey a ≠ eventedItemKey b := by
  intro h
  have h2 := congrArg (fun s => s.data.head?) h
  revert h2
  simp [itemKey, eventedItemKey, EVENTED_ITEM_PREFIX]

theorem stripEventedPrefix_eventedItemKey (id : String) :
    stripEventedPrefix (eventedItemKey id) = itemKey id := by
  simp [stripEventedPrefix, eventedItemKey, EVENTED_ITEM_PREFIX, String.singleton]

theorem stripEventedPrefix_itemKey (id : String) :
    stripEventedPrefix (itemKey id) = itemKey id := by
  simp [stripEventedPrefix, itemKey, EVENTED_ITEM_PREFIX]

/-! ### The decimal rendering of a sequence number ends in a digit -/

theorem toDigitsCore_suffix (fuel n : Nat) (ds : List Char) :
    ∃ pre, Nat.toDigitsCore 10 fuel n ds = pre ++ ds := by
  induction fuel generalizing n ds with
  | zero => exact ⟨[], rfl⟩
  | succ k ih =>
    unfold Nat.toDigitsCore
    simp only []
    split
    · exact ⟨[Nat.digitChar (n % 10)], rfl⟩
    · obtain ⟨pre, h⟩ := ih (n / 10) (Nat.digitChar (n % 10) :: ds)
      exact ⟨pre ++ [Nat.digitChar (n % 10)], by rw [h]; simp⟩

theorem digitChar_ne_q (d : Nat) (h : d < 10) : Nat.digitChar d ≠ 'q' := by
  interval_cases d <;> decide

theorem nat_repr_last (n : Nat) : ∃ pre d, (toString n).data = pre ++ [d] ∧ d ≠ 'q' := by
  show ∃ pre d, (Nat.repr n).data = pre ++ [d] ∧ d ≠ 'q'
  unfold Nat.repr Nat.toDigits
  unfold Nat.toDigitsCore
  simp only []
  split
  · exact ⟨[], _, rfl, digitChar_ne_q _ (Nat.mod_lt _ (by norm_num))⟩
  · obtain ⟨pre, h⟩ := toDigitsCore_suffix n (n / 10) [Nat.digitChar (n % 10)]
    exact ⟨pre, _, by rw [h]; rfl, digitChar_ne_q _ (Nat.mod_lt _ (by norm_num))⟩

theorem int_repr_last (n : Int) : ∃ pre d, (toString n).data = pre ++ [d] ∧ d ≠ 'q' := by
  cases n with
  | ofNat m => exact nat_repr_last m
  | negSucc m =>
    obtain ⟨pre, d, h, hd⟩ := nat_repr_last (m + 1)
    refine ⟨'-' :: pre, d, ?_, hd⟩
    show ("-" ++ toString (m + 1)).data = _
    rw [String.data_append, h]; rfl

/-- A synthesised item id never names the author's sequence counter. -/
theorem itemKey_itemId_ne_itemSeqKey (pid : String) (seq : Int) (pid2 : String) :
    itemKey (itemId pid seq) ≠ itemSeqKey pid2 := by
  intro h
  obtain ⟨pre, d, hd, hq⟩ := int_repr_last seq
  have h2 := congrArg String.data h
  simp only [itemKey, itemId, itemSeqKey, String.data_append, hd] at h2
  rw [← List.append_assoc, ← List.append_assoc, ← List.append_assoc] at h2
  have h3 := suffix_clash h2 1 (by simp) (by decide)
  simp only [List.reverse_singleton, List.take_succ_cons, List.take_zero] at h3
  have h4 : (":itemseq" : String).data.reverse.take 1 = ['q'] := by decide
  rw [h4] at h3
  exact hq (List.head_eq_of_cons_eq h3)

/-! ## Sorted sets -/

theorem zscore_filter_ne_same (z : ZSet) (m : String) :
    zscore (z.filter (fun e => e.1 ≠ m)) m = none := by
  induction z with
  | nil => rfl
  | cons e rest ih =>
    obtain ⟨k, v⟩ := e
    by_cases h : k = m <;> simp_all [List.filter_cons, zscore]

theorem zscore_filter_ne_other (z : ZSet) {m m' : String} (h : m' ≠ m) :
    zscore (z.filter (fun e => e.1 ≠ m)) m' = zscore z m' := by
  induction z with
  | nil => rfl
  | cons e rest ih =>
    obtain ⟨k, v⟩ := e
    by_cases hk : k = m
    · have : ¬ m = m' := fun h2 => h h2.symm
      simp_all [List.filter_cons, zscore]
    · by_cases hk' : k = m' <;> simp_all [List.filter_cons, zscore]

theorem zscore_zadd_same (z : ZSet) (sc : Int) (m : String) :
    zscore (zadd z sc m) m = some sc := by
  simp [zadd, zscore]

theorem zscore_zadd_other (z : ZSet) (sc : Int) {m m' : String} (h : m' ≠ m) :
    zscore (zadd z sc m) m' = zscore z m' := by
  have := zscore_filter_ne_other z h
  simp_all [zadd, zscore, Ne.symm h]

theorem zscore_zrem_same (z : ZSet) (m : String) : zscore (zrem z m) m = none :=
  zscore_filter_ne_same z m

theorem zscore_zrem_other (z : ZSet) {m m' : String} (h : m' ≠ m) :
    zscore (zrem z m) m' = zscore z m' :=
  zscore_filter_ne_other z h

theorem zscore_eq_none_iff (z : ZSet) (m : String) :
    zscore z m = none ↔ ∀ e ∈ z, e.1 ≠ m := by
  induction z with
  | nil => simp [zscore]
  | cons e rest ih =>
    obtain ⟨k, v⟩ := e
    by_cases hk : k = m
    · simp [zscore, hk]
    · simp [zscore, hk, ih]

theorem mem_zrange (z : ZSet) (m : String) : m ∈ zrange z ↔ zmem z m := by
  unfold zrange zsorted zmem
  rw [Ne, zscore_eq_none_iff]
  simp only [List.mem_map, List.mem_insertionSort]
  constructor
  · rintro ⟨e, he, rfl⟩ h
    exact h e he rfl
  · intro h
    by_contra hc
    apply h
    intro e he heq
    exact hc ⟨e, he, heq⟩

/-! ## Creation: the stages of `AddItem` -/

theorem withEntries_idem (z : ZSet) (item : Item) (isEvent : Bool) {k k' : String}
    (hk : k ≠ k') :
    withEntries (withEntries z item isEvent k k') item isEvent k k'
      = withEntries z item isEvent k k' := by
  cases isEvent
  · simp [withEntries, zadd, List.filter_filter]
  · simp [withEntries, zadd, List.filter_filter, hk, Ne.symm hk, List.filter_cons]
    congr 1
    funext e
    by_cases h1 : e.1 = k <;> by_cases h2 : e.1 = k' <;> simp [h1, h2]

theorem writeEntries_frame (s : RedisStore) (down : Nat → Bool) (n : Nat) (key : String)
    (item : Item) (isEvent : Bool) (k k' : String) :
    (writeEntries s down n key item isEvent k k').1.idb = s.idb ∧
    (writeEntries s down n key item isEvent k k').1.pdb = s.pdb ∧
    (writeEntries s down n key item isEvent k k').1.pdbSets = s.pdbSets ∧
    ∀ x, x ≠ key → (writeEntries s down n key item isEvent k k').1.tdb x = s.tdb x := by
  unfold writeEntries
  by_cases h0 : down n = true
  · simp [h0]
  · by_cases hE : isEvent = true
    · by_cases h1 : down (n + 1) = true
      · simp [h0, hE, h1, RedisStore.tZADD]
        intro x hx; exact Function.update_noteq hx _ _
      · simp [h0, hE, h1, RedisStore.tZADD]
        intro x hx; simp [Function.update_noteq hx]
    · simp [h0, hE, RedisStore.tZADD]
      intro x hx; exact Function.update_noteq hx _ _

theorem writeEntries_ok (s : RedisStore) (down : Nat → Bool) (n : Nat) (key : String)
    (item : Item) (isEvent : Bool) (k k' : String)
    (h : (writeEntries s down n key item isEvent k k').2.2 = none) :
    (writeEntries s down n key item isEvent k k').1.tdb key
      = withEntries (s.tdb key) item isEvent k k' := by
  unfold writeEntries at h ⊢
  by_cases h0 : down n = true
  · simp [h0] at h
  · by_cases hE : isEvent = true
    · by_cases h1 : down (n + 1) = true
      · simp [h0, hE, h1] at h
      · simp [h0, hE, h1, RedisStore.tZADD, withEntries]
    · simp [h0, hE, RedisStore.tZADD, withEntries]

theorem fanOut_frame (down : Nat → Bool) (item : Item) (isEvent : Bool) (k k' : String)
    (L : List String) (s : RedisStore) (n : Nat) :
    (fanOut down item isEvent k k' L s n).1.idb = s.idb ∧
    (fanOut down item isEvent k k' L s n).1.pdb = s.pdb ∧
    (fanOut down item isEvent k k' L s n).1.pdbSets = s.pdbSets ∧
    ∀ x, (∀ f ∈ L, x ≠ possiblyKey f ORDERING_TS) →
      (fanOut down item isEvent k k' L s n).1.tdb x = s.tdb x := by
  induction L generalizing s n with
  | nil => simp [fanOut]
  | cons f rest ih =>
    have hf := writeEntries_frame s down n (possiblyKey f ORDERING_TS) item isEvent k k'
    rcases hw : writeEntries s down n (possiblyKey f ORDERING_TS) item isEvent k k'
      with ⟨s1, n1, e⟩
    rw [hw] at hf
    cases e with
    | some e =>
      simp only [fanOut, hw]
      refine ⟨hf.1, hf.2.1, hf.2.2.1, fun x hx => hf.2.2.2 x (hx f (List.mem_cons_self _ _))⟩
    | none =>
      simp only [fanOut, hw]
      have h2 := ih s1 n1
      refine ⟨h2.1.trans hf.1, h2.2.1.trans hf.2.1, h2.2.2.1.trans hf.2.2.1, fun x hx => ?_⟩
      rw [h2.2.2.2 x (fun g hg => hx g (List.mem_cons_of_mem _ hg))]
      exact hf.2.2.2 x (hx f (List.mem_cons_self _ _))

theorem fanOut_ok (down : Nat → Bool) (item : Item) (isEvent : Bool) {k k' : String}
    (hk : k ≠ k') (L : List String) (s : RedisStore) (n : Nat)
    (h : (fanOut down item isEvent k k' L s n).2.2 = none) :
    ∀ f ∈ L, (fanOut down item isEvent k k' L s n).1.tdb (possiblyKey f ORDERING_TS)
      = withEntries (s.tdb (possiblyKey f ORDERING_TS)) item isEvent k k' := by
  induction L generalizing s n with
  | nil => simp
  | cons g rest ih =>
    have hf := writeEntries_frame s down n (possiblyKey g ORDERING_TS) item isEvent k k'
    have ho := writeEntries_ok s down n (possiblyKey g ORDERING_TS) item isEvent k k'
    rcases hw : writeEntries s down n (possiblyKey g ORDERING_TS) item isEvent k k'
      with ⟨s1, n1, e⟩
    rw [hw] at hf ho
    cases e with
    | some e => simp [fanOut, hw] at h
    | none =>
      simp only [fanOut, hw] at h ⊢
      have ho' : s1.tdb (possiblyKey g ORDERING_TS)
          = withEntries (s.tdb (possiblyKey g ORDERING_TS)) item isEvent k k' := ho rfl
      have hf' : ∀ x, x ≠ possiblyKey g ORDERING_TS → s1.tdb x = s.tdb x := hf.2.2.2
      intro f hfm
      by_cases hin : f ∈ rest
      · rw [ih s1 n1 h f hin]
        by_cases hfg : f = g
        · subst hfg
          rw [ho']
          exact withEntries_idem _ _ _ hk
        · have hne : possiblyKey f ORDERING_TS ≠ possiblyKey g ORDERING_TS :=
            fun hc => hfg (possiblyKey_inj hc)
          rw [hf' _ hne]
      · have hfg : f = g := by
          rcases List.mem_cons.mp hfm with h1 | h1
          · exact h1
          · exact absurd h1 hin
        subst hfg
        rw [(fanOut_frame down item isEvent k k' rest s1 n1).2.2.2 _
          (fun g' hg hc => hin (by rw [possiblyKey_inj hc]; exact hg))]
        exact ho'

theorem itemKey_ne_empty (id : String) : itemKey id ≠ "" := by
  intro h
  have h2 := congrArg (fun s => s.data.head?) h
  revert h2
  simp [itemKey]

theorem addItemWrites_body (s : RedisStore) (down : Nat → Bool) (n : Nat) (pid : String)
    (item : Item) (isEvent : Bool) (itemid : String)
    (hkey : (addItemWrites s down n pid item isEvent itemid).2.1 = itemKey itemid) :
    (addItemWrites s down n pid item isEvent itemid).1.idb (itemKey itemid)
      = some (.item item) := by
  unfold addItemWrites at hkey ⊢
  dsimp only at hkey ⊢
  by_cases h0 : down n = true
  · simp [h0] at hkey
    exact absurd hkey.symm (itemKey_ne_empty itemid)
  · clear hkey
    simp only [h0]
    have hf := writeEntries_frame
      { s with idb := Function.update s.idb (itemKey itemid) (some (.item item)) }
      down (n + 1) (maybeKey pid ORDERING_TS) item isEvent (itemKey itemid) (eventedItemKey itemid)
    rcases hw : writeEntries
      { s with idb := Function.update s.idb (itemKey itemid) (some (.item item)) }
      down (n + 1) (maybeKey pid ORDERING_TS) item isEvent (itemKey itemid) (eventedItemKey itemid)
      with ⟨s2, n2, e⟩
    rw [hw] at hf
    have hidb2 : s2.idb = Function.update s.idb (itemKey itemid) (some (.item item)) := hf.1
    cases e with
    | some e => simp [hidb2]
    | none =>
      dsimp only
      by_cases h2 : down n2 = true
      · simp [h2, hidb2]
      · simp only [h2]
        have hg := fanOut_frame down item isEvent (itemKey itemid) (eventedItemKey itemid)
          (zrange (s2.pdb (followersKey pid))) s2 (n2 + 1)
        rcases hfo : fanOut down item isEvent (itemKey itemid) (eventedItemKey itemid)
          (zrange (s2.pdb (followersKey pid))) s2 (n2 + 1) with ⟨s3, n3, e3⟩
        rw [hfo] at hg
        have hidb3 : s3.idb = s2.idb := hg.1
        cases e3 with
        | some e => simp [hidb3, hidb2]
        | none =>
          dsimp only
          by_cases hl : item.Link ≠ "" ∧ item.Image = ""
          · by_cases h3 : down n3 = true <;> simp [hl, h3, hidb3, hidb2, RedisStore.pSADD]
          · simp [hl, hidb3, hidb2]

theorem addItemWrites_ok (s : RedisStore) (down : Nat → Bool) (n : Nat) (pid : String)
    (item : Item) (isEvent : Bool) (itemid : String)
    (hok : (addItemWrites s down n pid item isEvent itemid).2.2 = none) :
    (addItemWrites s down n pid item isEvent itemid).2.1 = itemKey itemid ∧
    (addItemWrites s down n pid item isEvent itemid).1.idb
      = Function.update s.idb (itemKey itemid) (some (.item item)) ∧
    (addItemWrites s down n pid item isEvent itemid).1.pdb = s.pdb ∧
    (addItemWrites s down n pid item isEvent itemid).1.tdb (maybeKey pid ORDERING_TS)
      = withEntries (s.tdb (maybeKey pid ORDERING_TS)) item isEvent
          (itemKey itemid) (eventedItemKey itemid) ∧
    (∀ f, zmem (s.pdb (followersKey pid)) f →
      (addItemWrites s down n pid item isEvent itemid).1.tdb (possiblyKey f ORDERING_TS)
        = withEntries (s.tdb (possiblyKey f ORDERING_TS)) item isEvent
            (itemKey itemid) (eventedItemKey itemid)) ∧
    (∀ x, x ≠ maybeKey pid ORDERING_TS →
      (∀ f, zmem (s.pdb (followersKey pid)) f → x ≠ possiblyKey f ORDERING_TS) →
      (addItemWrites s down n pid item isEvent itemid).1.tdb x = s.tdb x) := by
  unfold addItemWrites at hok ⊢
  dsimp only at hok ⊢
  by_cases h0 : down n = true
  · simp [h0] at hok
  · simp only [h0] at hok ⊢
    have hf := writeEntries_frame
      { s with idb := Function.update s.idb (itemKey itemid) (some (.item item)) }
      down (n + 1) (maybeKey pid ORDERING_TS) item isEvent (itemKey itemid) (eventedItemKey itemid)
    have ho := writeEntries_ok
      { s with idb := Function.update s.idb (itemKey itemid) (some (.item item)) }
      down (n + 1) (maybeKey pid ORDERING_TS) item isEvent (itemKey itemid) (eventedItemKey itemid)
    rcases hw : writeEntries
      { s with idb := Function.update s.idb (itemKey itemid) (some (.item item)) }
      down (n + 1) (maybeKey pid ORDERING_TS) item isEvent (itemKey itemid) (eventedItemKey itemid)
      with ⟨s2, n2, e⟩
    rw [hw] at hf ho hok
    cases e with
    | some e => simp at hok
    | none =>
      have hidb2 : s2.idb = Function.update s.idb (itemKey itemid) (some (.item item)) := hf.1
      have hpdb2 : s2.pdb = s.pdb := hf.2.1
      have htdb2 : ∀ x, x ≠ maybeKey pid ORDERING_TS → s2.tdb x = s.tdb x := hf.2.2.2
      have hm2 : s2.tdb (maybeKey pid ORDERING_TS)
          = withEntries (s.tdb (maybeKey pid ORDERING_TS)) item isEvent
              (itemKey itemid) (eventedItemKey itemid) := ho rfl
      dsimp only at hok ⊢
      by_cases h2 : down n2 = true
      · simp [h2] at hok
      · simp only [h2] at hok ⊢
        have hg := fanOut_frame down item isEvent (itemKey itemid) (eventedItemKey itemid)
          (zrange (s2.pdb (followersKey pid))) s2 (n2 + 1)
        have hgo := fanOut_ok down item isEvent (itemKey_ne_eventedItemKey itemid itemid)
          (zrange (s2.pdb (followersKey pid))) s2 (n2 + 1)
        rcases hfo : fanOut down item isEvent (itemKey itemid) (eventedItemKey itemid)
          (zrange (s2.pdb (followersKey pid))) s2 (n2 + 1) with ⟨s3, n3, e3⟩
        rw [hfo] at hg hgo hok
        cases e3 with
        | some e => simp at hok
        | none =>
          have hidb3 : s3.idb = s2.idb := hg.1
          have hpdb3 : s3.pdb = s2.pdb := hg.2.1
          have htdb3 : ∀ x, (∀ f ∈ zrange (s2.pdb (followersKey pid)),
              x ≠ possiblyKey f ORDERING_TS) → s3.tdb x = s2.tdb x := hg.2.2.2
          have hfol : ∀ f ∈ zrange (s2.pdb (followersKey pid)),
              s3.tdb (possiblyKey f ORDERING_TS)
                = withEntries (s2.tdb (possiblyKey f ORDERING_TS)) item isEvent
                    (itemKey itemid) (eventedItemKey itemid) := hgo rfl
          have hfinal : ∀ r : RedisStore × String × Option Err,
              (r = (s3, itemKey itemid, none) ∨
                r = (s3.pSADD ITEMS_NEEDING_IMAGES itemid, itemKey itemid, none)) →
              r.2.1 = itemKey itemid ∧
              r.1.idb = Function.update s.idb (itemKey itemid) (some (.item item)) ∧
              r.1.pdb = s.pdb ∧
              r.1.tdb (maybeKey pid ORDERING_TS)
                = withEntries (s.tdb (maybeKey pid ORDERING_TS)) item isEvent
                    (itemKey itemid) (eventedItemKey itemid) ∧
              (∀ f, zmem (s.pdb (followersKey pid)) f →
                r.1.tdb (possiblyKey f ORDERING_TS)
                  = withEntries (s.tdb (possiblyKey f ORDERING_TS)) item isEvent
                      (itemKey itemid) (eventedItemKey itemid)) ∧
              (∀ x, x ≠ maybeKey pid ORDERING_TS →
                (∀ f, zmem (s.pdb (followersKey pid)) f → x ≠ possiblyKey f ORDERING_TS) →
                r.1.tdb x = s.tdb x) := by
            intro r hr
            have htdb : r.1.tdb = s3.tdb := by
              rcases hr with rfl | rfl <;> rfl
            have hidb : r.1.idb = s3.idb := by
              rcases hr with rfl | rfl <;> rfl
            have hpdb : r.1.pdb = s3.pdb := by
              rcases hr with rfl | rfl <;> rfl
            have hk : r.2.1 = itemKey itemid := by
              rcases hr with rfl | rfl <;> rfl
            rw [hpdb2] at htdb3 hfol
            refine ⟨hk, by rw [hidb, hidb3, hidb2], by rw [hpdb, hpdb3, hpdb2], ?_, ?_, ?_⟩
            · rw [htdb, htdb3 _ (fun f _ => (possiblyKey_ne_maybeKey f pid).symm), hm2]
            · intro f hfm
              rw [htdb, hfol f ((mem_zrange _ _).mpr hfm),
                htdb2 _ (possiblyKey_ne_maybeKey f pid)]
            · intro x hx1 hx2
              rw [htdb, htdb3 x (fun f hfm => hx2 f ((mem_zrange _ _).mp hfm)), htdb2 x hx1]
          dsimp only at hok ⊢
          by_cases hl : item.Link ≠ "" ∧ item.Image = ""
          · by_cases h3 : down n3 = true
            · simp [hl, h3] at hok
            · rw [if_pos hl, if_neg h3]
              exact hfinal _ (Or.inr rfl)
          · rw [if_neg hl]
            exact hfinal _ (Or.inl rfl)

theorem addItemWithId_exists (s : RedisStore) (down : Nat → Bool) (n : Nat) (now : Time)
    (pid : String) (ets : Time) (text link itemid : String)
    (hex : (s.idb (itemKey itemid)).isSome = true) (hup : down n = false) :
    addItemWithId s down n now pid ets text link itemid = (s, itemKey itemid, none) := by
  simp [addItemWithId, RedisStore.ItemExists, hup, hex]

theorem addItemWithId_key (s : RedisStore) (down : Nat → Bool) (n : Nat) (now : Time)
    (pid : String) (ets : Time) (text link itemid : String)
    (hok : (addItemWithId s down n now pid ets text link itemid).2.2 = none) :
    (addItemWithId s down n now pid ets text link itemid).2.1 = itemKey itemid := by
  unfold addItemWithId at hok ⊢
  dsimp only at hok ⊢
  by_cases hex : (s.ItemExists (down n) itemid).1 = true
  · simp [hex]
  · rw [if_neg hex] at hok ⊢
    exact (addItemWrites_ok _ _ _ _ _ _ _ hok).1

theorem addItemWithId_body (s : RedisStore) (down : Nat → Bool) (n : Nat) (now : Time)
    (pid : String) (ets : Time) (text link itemid : String)
    (hkey : (addItemWithId s down n now pid ets text link itemid).2.1 = itemKey itemid) :
    ((addItemWithId s down n now pid ets text link itemid).1.idb (itemKey itemid)).isSome
      = true := by
  unfold addItemWithId at hkey ⊢
  dsimp only at hkey ⊢
  by_cases hex : (s.ItemExists (down n) itemid).1 = true
  · rw [if_pos hex]
    unfold RedisStore.ItemExists at hex
    by_cases hd : down n = true
    · simp [hd] at hex
    · simpa [hd] using hex
  · rw [if_neg hex] at hkey ⊢
    rw [addItemWrites_body _ _ _ _ _ _ _ hkey]
    rfl

theorem addItemWithId_created (s : RedisStore) (down : Nat → Bool) (n : Nat) (now : Time)
    (pid : String) (ets : Time) (text link itemid : String)
    (hnew : s.idb (itemKey itemid) = none)
    (hok : (addItemWithId s down n now pid ets text link itemid).2.2 = none) :
    (addItemWithId s down n now pid ets text link itemid).1.idb
      = Function.update s.idb (itemKey itemid)
          (some (.item (createdItem now pid ets text link itemid))) ∧
    (addItemWithId s down n now pid ets text link itemid).1.pdb = s.pdb ∧
    (addItemWithId s down n now pid ets text link itemid).1.tdb (maybeKey pid ORDERING_TS)
      = withEntries (s.tdb (maybeKey pid ORDERING_TS)) (createdItem now pid ets text link itemid)
          (decide (ets.UnixNano > 0)) (itemKey itemid) (eventedItemKey itemid) ∧
    (∀ f, zmem (s.pdb (followersKey pid)) f →
      (addItemWithId s down n now pid ets text link itemid).1.tdb (possiblyKey f ORDERING_TS)
        = withEntries (s.tdb (possiblyKey f ORDERING_TS))
            (createdItem now pid ets text link itemid)
            (decide (ets.UnixNano > 0)) (itemKey itemid) (eventedItemKey itemid)) ∧
    (∀ x, x ≠ maybeKey pid ORDERING_TS →
      (∀ f, zmem (s.pdb (followersKey pid)) f → x ≠ possiblyKey f ORDERING_TS) →
      (addItemWithId s down n now pid ets text link itemid).1.tdb x = s.tdb x) := by
  have hex : ¬ (s.ItemExists (down n) itemid).1 = true := by
    unfold RedisStore.ItemExists; split <;> simp [hnew]
  unfold addItemWithId at hok ⊢
  dsimp only at hok ⊢
  rw [if_neg hex] at hok ⊢
  exact (addItemWrites_ok _ _ _ _ _ _ _ hok).2

theorem INCR_frame {idb idb' : String → Option Value} {key : String} {seq : Int}
    (h : INCR idb key = .ok (idb', seq)) : ∀ x, x ≠ key → idb' x = idb x := by
  unfold INCR at h
  intro x hx
  split at h
  · cases h; exact Function.update_noteq hx _ _
  · split at h
    · cases h; exact Function.update_noteq hx _ _
    · cases h
  · cases h

/-- What a successful `AddItem` that creates the item `id` leaves: the body it
built, the entry pair in the author's confirmed timeline and in the candidate
timeline of every follower, and every other timeline as it was. -/
theorem AddItem_created (s : RedisStore) (down : Nat → Bool) (now : Time) (pid : String)
    (ets : Time) (text link image itemid id : String)
    (hkey : (s.AddItem down now pid ets text link image itemid).2.1 = itemKey id)
    (hnew : s.idb (itemKey id) = none)
    (hok : (s.AddItem down now pid ets text link image itemid).2.2 = none) :
    (s.AddItem down now pid ets text link image itemid).1.idb (itemKey id)
      = some (.item (createdItem now pid ets text link id)) ∧
    (s.AddItem down now pid ets text link image itemid).1.pdb = s.pdb ∧
    (s.AddItem down now pid ets text link image itemid).1.tdb (maybeKey pid ORDERING_TS)
      = withEntries (s.tdb (maybeKey pid ORDERING_TS)) (createdItem now pid ets text link id)
          (decide (ets.UnixNano > 0)) (itemKey id) (eventedItemKey id) ∧
    (∀ f, zmem (s.pdb (followersKey pid)) f →
      (s.AddItem down now pid ets text link image itemid).1.tdb (possiblyKey f ORDERING_TS)
        = withEntries (s.tdb (possiblyKey f ORDERING_TS))
            (createdItem now pid ets text link id)
            (decide (ets.UnixNano > 0)) (itemKey id) (eventedItemKey id)) ∧
    (∀ x, x ≠ maybeKey pid ORDERING_TS →
      (∀ f, zmem (s.pdb (followersKey pid)) f → x ≠ possiblyKey f ORDERING_TS) →
      (s.AddItem down now pid ets text link image itemid).1.tdb x = s.tdb x) := by
  unfold RedisStore.AddItem at hkey hok ⊢
  by_cases he : itemid = ""
  · rw [if_pos he] at hkey hok ⊢
    by_cases h0 : down 0 = true
    · simp [h0] at hok
    · rw [if_neg h0] at hkey hok ⊢
      rcases hi : INCR s.idb (itemSeqKey pid) with e | ⟨idb', seq⟩
      · rw [hi] at hok
        simp at hok
      · rw [hi] at hkey hok
        dsimp only at hkey hok ⊢
        have hid : id = itemId pid seq :=
          (itemKey_inj ((addItemWithId_key _ _ _ _ _ _ _ _ _ hok).symm.trans hkey)).symm
        subst hid
        have hnew' : idb' (itemKey (itemId pid seq)) = none := by
          rw [INCR_frame hi _ (itemKey_itemId_ne_itemSeqKey pid seq pid)]; exact hnew
        have h := addItemWithId_created { s with idb := idb' } down 1 now pid ets text link
          (itemId pid seq) hnew' hok
        refine ⟨?_, h.2.1, h.2.2.1, h.2.2.2.1, h.2.2.2.2⟩
        rw [h.1]; exact Function.update_same _ _ _
  · rw [if_neg he] at hkey hok ⊢
    have hid : id = itemid :=
      (itemKey_inj ((addItemWithId_key _ _ _ _ _ _ _ _ _ hok).symm.trans hkey)).symm
    subst hid
    have h := addItemWithId_created s down 0 now pid ets text link id hnew hok
    refine ⟨?_, h.2.1, h.2.2.1, h.2.2.2.1, h.2.2.2.2⟩
    rw [h.1]; exact Function.update_same _ _ _

/-! ## Claims on the evented score -/

/-- C1: for every reading `now` of the clock (the creation instant `tsnano`) and
every event instant `ets` with `ets.UnixNano() > 0`, the `Event` value that a
creating `AddItem` stores in the item, and uses as the score of the evented
entry, is `ets.Unix() * 1000000000 + tsnano % 1000000000` in Go's `int64`
arithmetic, and `eventedItemScore` computes the same integer before it
converts it to `float64`.  For a creation
instant at or after the epoch and a result that fits `int64` this is the
mathematical `ets.Unix() * 1000000000 + (tsnano mod 1000000000)`. -/
theorem C1_evented_score_value (s : RedisStore) (down : Nat → Bool) (now : Time) (pid : String)
    (ets : Time) (text link image itemid id : String)
    (hets : ets.UnixNano > 0)
    (hkey : (s.AddItem down now pid ets text link image itemid).2.1 = itemKey id)
    (hnew : s.idb (itemKey id) = none)
    (hok : (s.AddItem down now pid ets text link image itemid).2.2 = none) :
    ∃ item : Item,
      (s.AddItem down now pid ets text link image itemid).1.idb (itemKey id)
        = some (.item item) ∧
      item.Added = now.UnixNano ∧
      item.Event = wrap64 (ets.Unix * 1000000000 + Int.tmod now.UnixNano 1000000000) ∧
      zscore ((s.AddItem down now pid ets text link image itemid).1.tdb
        (maybeKey pid ORDERING_TS)) (eventedItemKey id) = some item.Event ∧
      eventedItemNanos now ets = item.Event ∧
      eventedItemScore now ets = float64 item.Event ∧
      (0 ≤ now.UnixNano →
        isInt64 (ets.Unix * 1000000000 + now.UnixNano % 1000000000) →
        item.Event = ets.Unix * 1000000000 + now.UnixNano % 1000000000) := by
  have h := AddItem_created s down now pid ets text link image itemid id hkey hnew hok
  have hEv : (createdItem now pid ets text link id).Event
      = wrap64 (ets.Unix * 1000000000 + Int.tmod now.UnixNano 1000000000) := by
    simp only [createdItem, if_pos hets, subsecond_eq_tmod _ (isInt64_UnixNano now),
      wrap64_wrap_add]
  refine ⟨createdItem now pid ets text link id, h.1, rfl, hEv, ?_, ?_, ?_, ?_⟩
  · rw [h.2.2.1]
    simp [withEntries, hets, zscore_zadd_same]
  · rw [eventedItemNanos_eq, hEv]
  · unfold eventedItemScore
    rw [eventedItemNanos_eq, hEv]
  · intro hnow hfit
    rw [hEv, Int.tmod_eq_emod hnow (by norm_num)]
    exact wrap64_of_isInt64 hfit

/-- C1, at a concrete creation: `a` creates `x` at second 100 for an event at
second 50. -/
theorem C1_evented_score_value_witness :
    ∃ item : Item,
      (twoFollowers.AddItem allUp (atSecond 100) "a" (atSecond 50) "hello" "" ""
        "x").1.idb (itemKey "x") = some (.item item) ∧
      item.Added = (atSecond 100).UnixNano ∧
      item.Event = wrap64 ((atSecond 50).Unix * 1000000000
        + Int.tmod (atSecond 100).UnixNano 1000000000) ∧
      zscore ((twoFollowers.AddItem allUp (atSecond 100) "a" (atSecond 50) "hello" "" ""
        "x").1.tdb (maybeKey "a" ORDERING_TS)) (eventedItemKey "x") = some item.Event ∧
      eventedItemNanos (atSecond 100) (atSecond 50) = item.Event ∧
      eventedItemScore (atSecond 100) (atSecond 50) = float64 item.Event ∧
      (0 ≤ (atSecond 100).UnixNano →
        isInt64 ((atSecond 50).Unix * 1000000000 + (atSecond 100).UnixNano % 1000000000) →
        item.Event = (atSecond 50).Unix * 1000000000 + (atSecond 100).UnixNano % 1000000000) :=
  C1_evented_score_value twoFollowers allUp (atSecond 100) "a" (atSecond 50) "hello" "" "" "x"
    "x" (by decide) (by decide) (by decide) (by decide)

/-- C2, as stated, fails, twice over.  The creation instants of second 1 and
of second 2 are different, and for the event instant of second 50 they get the
same evented score: the same `int64`, stored as `Event` by `AddItem`, and the
same `float64` from `eventedItemScore`.  And the creation instants 1 and 2
nanoseconds into a second have different sub-second remainders and different
`int64` scores for an event instant of the year 2023, yet `eventedItemScore`
returns one `float64` for both. -/
theorem C2_counterexample :
    ((atSecond 1).UnixNano ≠ (atSecond 2).UnixNano ∧
      (createdItem (atSecond 1) "a" (atSecond 50) "one" "" "x").Event
        = (createdItem (atSecond 2) "a" (atSecond 50) "two" "" "y").Event ∧
      eventedItemNanos (atSecond 1) (atSecond 50) = eventedItemNanos (atSecond 2) (atSecond 50) ∧
      eventedItemScore (atSecond 1) (atSecond 50)
        = eventedItemScore (atSecond 2) (atSecond 50)) ∧
    ((intoSecond100 1 (by decide)).UnixNano ≠ (intoSecond100 2 (by decide)).UnixNano ∧
      eventedItemNanos (intoSecond100 1 (by decide)) (atSecond 1700000000)
        = 1700000000000000001 ∧
      eventedItemNanos (intoSecond100 2 (by decide)) (atSecond 1700000000)
        = 1700000000000000002 ∧
      eventedItemScore (intoSecond100 1 (by decide)) (atSecond 1700000000)
        = eventedItemScore (intoSecond100 2 (by decide)) (atSecond 1700000000)) := by
  decide

/-- C2, amended: for every event instant and every two creation instants, the
`int64` computed as the evented score, by `eventedItemScore` before its
conversion and by `AddItem` for the `Event` it stores and scores the evented
entry with, is the same for both creation instants exactly when they have the
same sub-second remainder; and creation instants with the same sub-second
remainder get the same `float64` from `eventedItemScore`.  Nothing is said of
the `float64` for different remainders. -/
theorem C2_collision_iff_same_subsecond (t1 t2 ets : Time) (pid text link id : String) :
    (eventedItemNanos t1 ets = eventedItemNanos t2 ets ↔
      Int.tmod t1.UnixNano 1000000000 = Int.tmod t2.UnixNano 1000000000) ∧
    (Int.tmod t1.UnixNano 1000000000 = Int.tmod t2.UnixNano 1000000000 →
      eventedItemScore t1 ets = eventedItemScore t2 ets) ∧
    (ets.UnixNano > 0 →
      ((createdItem t1 pid ets text link id).Event = (createdItem t2 pid ets text link id).Event
        ↔ Int.tmod t1.UnixNano 1000000000 = Int.tmod t2.UnixNano 1000000000)) := by
  have key : eventedItemNanos t1 ets = eventedItemNanos t2 ets ↔
      Int.tmod t1.UnixNano 1000000000 = Int.tmod t2.UnixNano 1000000000 := by
    rw [eventedItemNanos_eq, eventedItemNanos_eq]
    have h1 := tmod_bounds t1.UnixNano
    have h2 := tmod_bounds t2.UnixNano
    constructor
    · intro h
      unfold wrap64 at h
      omega
    · intro h
      rw [h]
  refine ⟨key, fun h => ?_, fun hets => ?_⟩
  · unfold eventedItemScore
    rw [key.mpr h]
  · have e : ∀ t : Time,
        (createdItem t pid ets text link id).Event = eventedItemNanos t ets := by
      intro t
      simp only [createdItem, if_pos hets, eventedItemNanos]
    rw [e t1, e t2]
    exact key

/-- C2 amended, at concrete instants: seconds 1 and 2 against an event at
second 50. -/
theorem C2_collision_iff_same_subsecond_witness :
    eventedItemNanos (atSecond 1) (atSecond 50) = eventedItemNanos (atSecond 2) (atSecond 50) ∧
    eventedItemScore (atSecond 1) (atSecond 50) = eventedItemScore (atSecond 2) (atSecond 50) ∧
    ((createdItem (atSecond 1) "a" (atSecond 50) "one" "" "x").Event
        = (createdItem (atSecond 2) "a" (atSecond 50) "one" "" "x").Event
      ↔ Int.tmod (atSecond 1).UnixNano 1000000000 = Int.tmod (atSecond 2).UnixNano 1000000000) :=
  ⟨(C2_collision_iff_same_subsecond (atSecond 1) (atSecond 2) (atSecond 50) "a" "one" ""
      "x").1.mpr (by decide),
   (C2_collision_iff_same_subsecond (atSecond 1) (atSecond 2) (atSecond 50) "a" "one" "" "x").2.1
      (by decide),
   (C2_collision_iff_same_subsecond (atSecond 1) (atSecond 2) (atSecond 50) "a" "one" "" "x").2.2
      (by decide)⟩

/-! ## Claims on idempotent creation and on retries -/

/-- A call of `AddItem` with an explicit id that returns the item key leaves a
body under it. -/
theorem AddItem_explicit_body (s : RedisStore) (down : Nat → Bool) (now : Time) (pid : String)
    (ets : Time) (text link image itemid : String) (hid : itemid ≠ "")
    (hkey : (s.AddItem down now pid ets text link image itemid).2.1 = itemKey itemid) :
    ((s.AddItem down now pid ets text link image itemid).1.idb (itemKey itemid)).isSome
      = true := by
  unfold RedisStore.AddItem at hkey ⊢
  rw [if_neg hid] at hkey ⊢
  exact addItemWithId_body _ _ _ _ _ _ _ _ _ hkey

theorem AddItem_explicit_exists (s : RedisStore) (down : Nat → Bool) (now : Time) (pid : String)
    (ets : Time) (text link image itemid : String) (hid : itemid ≠ "")
    (hex : (s.idb (itemKey itemid)).isSome = true) (hup : down 0 = false) :
    s.AddItem down now pid ets text link image itemid = (s, itemKey itemid, none) := by
  unfold RedisStore.AddItem
  rw [if_neg hid]
  exact addItemWithId_exists _ _ _ _ _ _ _ _ _ hex hup

theorem AddItem_explicit_key (s : RedisStore) (down : Nat → Bool) (now : Time) (pid : String)
    (ets : Time) (text link image itemid : String) (hid : itemid ≠ "")
    (hok : (s.AddItem down now pid ets text link image itemid).2.2 = none) :
    (s.AddItem down now pid ets text link image itemid).2.1 = itemKey itemid := by
  unfold RedisStore.AddItem at hok ⊢
  rw [if_neg hid] at hok ⊢
  exact addItemWithId_key _ _ _ _ _ _ _ _ _ hok

/-- C3, as stated, fails: `AddItem` drops the error of `ItemExists`.  In
`afterCreateX` a body exists under `itemKey("x")`; when the `EXISTS` command
of a second `AddItem` for `x` is not answered and the other commands are, the
call returns `itemKey("x")` with no error, and it has replaced the body and
re-scored the entry in the author's confirmed timeline. -/
theorem C3_counterexample :
    (afterCreateX.idb (itemKey "x")).map (fun v => (v.toItem.Text, v.toItem.Added))
      = some ("hello", 100000000000) ∧
    (afterCreateX.AddItem (failAt 0) (atSecond 200) "a" (atSecond 0) "again" "" "" "x").2
      = (itemKey "x", none) ∧
    ((afterCreateX.AddItem (failAt 0) (atSecond 200) "a" (atSecond 0) "again" "" ""
      "x").1.idb (itemKey "x")).map (fun v => (v.toItem.Text, v.toItem.Added))
      = some ("again", 200000000000) ∧
    zscore (afterCreateX.tdb (maybeKey "a" ORDERING_TS)) (itemKey "x") = some 100000000000 ∧
    zscore ((afterCreateX.AddItem (failAt 0) (atSecond 200) "a" (atSecond 0) "again" "" ""
      "x").1.tdb (maybeKey "a" ORDERING_TS)) (itemKey "x") = some 200000000000 := by
  decide

/-- C3, amended: `AddItem` is first-write-wins idempotent for an explicit id
when its `EXISTS` command is answered.  In every store in which a body exists
under `itemKey(itemid)`, for a non-empty `itemid`, a call whose `EXISTS`
command is answered returns `itemKey(itemid)` with no error and leaves the
whole store (items, timelines, profile database) as it was.  Hence after any
successful `AddItem` with that id, a second call with the same id whose
`EXISTS` command is answered returns the same key and writes nothing. -/
theorem C3_first_write_wins (s : RedisStore) (down down2 : Nat → Bool) (now now2 : Time)
    (pid : String) (ets : Time) (text link image itemid : String) (hid : itemid ≠ "") :
    ((s.idb (itemKey itemid)).isSome = true → down 0 = false →
      s.AddItem down now pid ets text link image itemid = (s, itemKey itemid, none)) ∧
    ((s.AddItem down now pid ets text link image itemid).2.2 = none → down2 0 = false →
      (s.AddItem down now pid ets text link image itemid).2.1 = itemKey itemid ∧
      (s.AddItem down now pid ets text link image itemid).1.AddItem down2 now2 pid ets text link
          image itemid
        = ((s.AddItem down now pid ets text link image itemid).1, itemKey itemid, none)) := by
  refine ⟨fun hex hup => AddItem_explicit_exists s down now pid ets text link image itemid hid
    hex hup, fun hok hup2 => ?_⟩
  have hkey := AddItem_explicit_key s down now pid ets text link image itemid hid hok
  exact ⟨hkey, AddItem_explicit_exists _ down2 now2 pid ets text link image itemid hid
    (AddItem_explicit_body s down now pid ets text link image itemid hid hkey) hup2⟩

/-- C3 amended, at a concrete store: `x` exists in `afterCreateX`; and `a`
creates `x` in `twoFollowers` and calls again. -/
theorem C3_first_write_wins_witness :
    afterCreateX.AddItem allUp (atSecond 200) "a" (atSecond 0) "again" "" "" "x"
      = (afterCreateX, itemKey "x", none) ∧
    ((twoFollowers.AddItem allUp (atSecond 100) "a" (atSecond 0) "hello" "" "" "x").2.1
        = itemKey "x" ∧
      (twoFollowers.AddItem allUp (atSecond 100) "a" (atSecond 0) "hello" "" "" "x").1.AddItem
          allUp (atSecond 200) "a" (atSecond 0) "hello" "" "" "x"
        = ((twoFollowers.AddItem allUp (atSecond 100) "a" (atSecond 0) "hello" "" "" "x").1,
            itemKey "x", none)) :=
  ⟨(C3_first_write_wins afterCreateX allUp allUp (atSecond 200) (atSecond 200) "a" (atSecond 0)
      "again" "" "" "x" (by decide)).1 (by decide) (by decide),
   (C3_first_write_wins twoFollowers allUp allUp (atSecond 100) (atSecond 200) "a" (atSecond 0)
      "hello" "" "" "x" (by decide)).2 (by decide) (by decide)⟩

/-- C4, as stated, fails: in `twoFollowers` the creation of `x` by `a` fails at
the write to the candidate timeline of the follower `f2`, after the body, the
author's entry and the entry of `f1` were written; the same call repeated with
every command answered returns the key with no error, and `f2`, a follower of
`a`, still has no entry for `x`. -/
theorem C4_counterexample :
    (twoFollowers.AddItem (failAt 5) (atSecond 100) "a" (atSecond 0) "hello" "" "" "x").2
      = (itemKey "x", some Err.storeUnavailable) ∧
    (afterPartialFanOut.idb (itemKey "x")).isSome = true ∧
    zscore (afterPartialFanOut.tdb (maybeKey "a" ORDERING_TS)) (itemKey "x")
      = some (atSecond 100).UnixNano ∧
    zscore (afterPartialFanOut.tdb (possiblyKey "f1" ORDERING_TS)) (itemKey "x")
      = some (atSecond 100).UnixNano ∧
    zmem (afterPartialFanOut.pdb (followersKey "a")) "f2" ∧
    (afterPartialFanOut.AddItem allUp (atSecond 200) "a" (atSecond 0) "hello" "" "" "x").2
      = (itemKey "x", none) ∧
    zscore ((afterPartialFanOut.AddItem allUp (atSecond 200) "a" (atSecond 0) "hello" "" ""
      "x").1.tdb (possiblyKey "f2" ORDERING_TS)) (itemKey "x") = none := by
  decide

/-- C4, amended: when `AddItem` with an explicit id has failed after writing
the body (it returned the item key with an error, as it does when a write to a
follower's candidate timeline fails), calling it again with the same id and the
store available is a no-op: it returns `itemKey(itemid)` with no error and
leaves every timeline as the failed call left it.  No entry is duplicated, and
the followers that had not been reached still lack the entries. -/
theorem C4_retry_is_noop (s : RedisStore) (down down2 : Nat → Bool) (now now2 : Time)
    (pid : String) (ets : Time) (text link image itemid : String) (hid : itemid ≠ "")
    (hkey : (s.AddItem down now pid ets text link image itemid).2.1 = itemKey itemid)
    (hfail : (s.AddItem down now pid ets text link image itemid).2.2 ≠ none)
    (hup2 : down2 0 = false) :
    (s.AddItem down now pid ets text link image itemid).1.AddItem down2 now2 pid ets text link
        image itemid
      = ((s.AddItem down now pid ets text link image itemid).1, itemKey itemid, none) :=
  AddItem_explicit_exists _ down2 now2 pid ets text link image itemid hid
    (AddItem_explicit_body s down now pid ets text link image itemid hid hkey) hup2

/-- C4 amended, at the concrete failure: the retry in `afterPartialFanOut`
changes nothing. -/
theorem C4_retry_is_noop_witness :
    (twoFollowers.AddItem (failAt 5) (atSecond 100) "a" (atSecond 0) "hello" "" ""
        "x").1.AddItem allUp (atSecond 200) "a" (atSecond 0) "hello" "" "" "x"
      = ((twoFollowers.AddItem (failAt 5) (atSecond 100) "a" (atSecond 0) "hello" "" ""
          "x").1, itemKey "x", none) :=
  C4_retry_is_noop twoFollowers (failAt 5) allUp (atSecond 100) (atSecond 200) "a" (atSecond 0)
    "hello" "" "" "x" (by decide) (by decide) (by decide) (by decide)

/-! ## Claims on the fan-out of a creation -/

theorem entriesOf_withEntries_noEvent (z : ZSet) (item : Item) (id : String)
    (hfresh : ¬ zmem z (eventedItemKey id)) :
    entriesOf (withEntries z item false (itemKey id) (eventedItemKey id)) id
      = [(itemKey id, item.Added)] := by
  have hz : ∀ e ∈ z, e.1 ≠ eventedItemKey id :=
    (zscore_eq_none_iff z _).mp (by simpa [zmem] using hfresh)
  simp only [withEntries, entriesOf, zadd, Bool.false_eq_true, if_false]
  rw [List.filter_cons_of_pos (by simp)]
  congr 1
  rw [List.filter_filter, List.filter_eq_nil_iff]
  intro e he
  have := hz e he
  by_cases h1 : e.1 = itemKey id <;> simp [h1, this]

theorem entriesOf_withEntries_event (z : ZSet) (item : Item) (id : String) :
    entriesOf (withEntries z item true (itemKey id) (eventedItemKey id)) id
      = [(eventedItemKey id, item.Event), (itemKey id, item.Added)] := by
  have hne := itemKey_ne_eventedItemKey id id
  simp only [withEntries, entriesOf, zadd, if_true]
  rw [List.filter_cons_of_pos (l := z.filter _) (by simpa using hne)]
  rw [List.filter_cons_of_pos (by simp), List.filter_cons_of_pos (by simp)]
  congr 2
  rw [List.filter_filter, List.filter_filter, List.filter_eq_nil_iff]
  intro e _
  by_cases h1 : e.1 = itemKey id <;> by_cases h2 : e.1 = eventedItemKey id <;> simp [h1, h2]

theorem zmem_withEntries_evented (z : ZSet) (item : Item) (isEvent : Bool) (id : String)
    (hfresh : ¬ zmem z (eventedItemKey id)) :
    zmem (withEntries z item isEvent (itemKey id) (eventedItemKey id)) (eventedItemKey id)
      ↔ isEvent = true := by
  cases isEvent
  · simp only [withEntries, zmem, Bool.false_eq_true, if_false, iff_false, not_not]
    rw [zscore_zadd_other _ _ (Ne.symm (itemKey_ne_eventedItemKey id id))]
    simpa [zmem] using hfresh
  · simp [withEntries, zmem, zscore_zadd_same]

/-- C5: fan-out on the creation of an item with no scheduled event
(`ets.UnixNano() <= 0`).  For every author `pid`, a successful `AddItem` that
creates a new item `id` (no body under its key, hence no evented entry of it in
any timeline before) leaves exactly one entry for the item, keyed `itemKey(id)`
and scored at the item's `Added`, in the author's confirmed timeline and in the
candidate timeline of every member of the author's followers index, and leaves
every other timeline as it was. -/
theorem C5_fanout_without_event (s : RedisStore) (down : Nat → Bool) (now : Time)
    (pid : String) (ets : Time) (text link image itemid id : String)
    (hnoev : ets.UnixNano ≤ 0)
    (hkey : (s.AddItem down now pid ets text link image itemid).2.1 = itemKey id)
    (hnew : s.idb (itemKey id) = none)
    (hfresh : ∀ k, ¬ zmem (s.tdb k) (eventedItemKey id))
    (hok : (s.AddItem down now pid ets text link image itemid).2.2 = none) :
    ∃ item : Item,
      (s.AddItem down now pid ets text link image itemid).1.idb (itemKey id)
        = some (.item item) ∧
      item.Added = now.UnixNano ∧
      entriesOf ((s.AddItem down now pid ets text link image itemid).1.tdb
        (maybeKey pid ORDERING_TS)) id = [(itemKey id, item.Added)] ∧
      (∀ f, zmem (s.pdb (followersKey pid)) f →
        entriesOf ((s.AddItem down now pid ets text link image itemid).1.tdb
          (possiblyKey f ORDERING_TS)) id = [(itemKey id, item.Added)]) ∧
      (∀ k, k ≠ maybeKey pid ORDERING_TS →
        (∀ f, zmem (s.pdb (followersKey pid)) f → k ≠ possiblyKey f ORDERING_TS) →
        (s.AddItem down now pid ets text link image itemid).1.tdb k = s.tdb k) := by
  have h := AddItem_created s down now pid ets text link image itemid id hkey hnew hok
  have hE : decide (ets.UnixNano > 0) = false := by simpa using hnoev
  rw [hE] at h
  refine ⟨createdItem now pid ets text link id, h.1, rfl, ?_, ?_, h.2.2.2.2⟩
  · rw [h.2.2.1]
    exact entriesOf_withEntries_noEvent _ _ _ (hfresh _)
  · intro f hf
    rw [h.2.2.2.1 f hf]
    exact entriesOf_withEntries_noEvent _ _ _ (hfresh _)

/-- C5, at a concrete creation: `a`, followed by `f1` and `f2`, creates `x`
with no event. -/
theorem C5_fanout_without_event_witness :
    ∃ item : Item,
      (twoFollowers.AddItem allUp (atSecond 100) "a" (atSecond 0) "hello" "" ""
        "x").1.idb (itemKey "x") = some (.item item) ∧
      item.Added = (atSecond 100).UnixNano ∧
      entriesOf ((twoFollowers.AddItem allUp (atSecond 100) "a" (atSecond 0) "hello" "" ""
        "x").1.tdb (maybeKey "a" ORDERING_TS)) "x" = [(itemKey "x", item.Added)] ∧
      (∀ f, zmem (twoFollowers.pdb (followersKey "a")) f →
        entriesOf ((twoFollowers.AddItem allUp (atSecond 100) "a" (atSecond 0) "hello" "" ""
          "x").1.tdb (possiblyKey f ORDERING_TS)) "x" = [(itemKey "x", item.Added)]) ∧
      (∀ k, k ≠ maybeKey "a" ORDERING_TS →
        (∀ f, zmem (twoFollowers.pdb (followersKey "a")) f →
          k ≠ possiblyKey f ORDERING_TS) →
        (twoFollowers.AddItem allUp (atSecond 100) "a" (atSecond 0) "hello" "" ""
          "x").1.tdb k = twoFollowers.tdb k) :=
  C5_fanout_without_event twoFollowers allUp (atSecond 100) "a" (atSecond 0) "hello" "" "" "x"
    "x" (by decide) (by decide) (by decide) (fun _ => by simp [twoFollowers, zmem, zscore])
    (by decide)

/-- C6, as stated, fails: for an event instant one second before the epoch the
successful creation of `x` stores a non-zero `Event` and writes no evented
entry, neither to the author's confirmed timeline nor to a follower's
candidate timeline; and so it is for the zero `time.Time`. -/
theorem C6_counterexample :
    ((twoFollowers.AddItem allUp (atSecond 100) "a" (atSecond (-1)) "hello" "" "" "x").2
        = (itemKey "x", none) ∧
      ((twoFollowers.AddItem allUp (atSecond 100) "a" (atSecond (-1)) "hello" "" ""
        "x").1.idb (itemKey "x")).map (fun v => v.toItem.Event) = some (-1000000000) ∧
      ¬ zmem ((twoFollowers.AddItem allUp (atSecond 100) "a" (atSecond (-1)) "hello" "" ""
        "x").1.tdb (maybeKey "a" ORDERING_TS)) (eventedItemKey "x") ∧
      ¬ zmem ((twoFollowers.AddItem allUp (atSecond 100) "a" (atSecond (-1)) "hello" "" ""
        "x").1.tdb (possiblyKey "f1" ORDERING_TS)) (eventedItemKey "x")) ∧
    ((twoFollowers.AddItem allUp (atSecond 100) "a" zeroTime "hello" "" "" "x").2
        = (itemKey "x", none) ∧
      ((twoFollowers.AddItem allUp (atSecond 100) "a" zeroTime "hello" "" ""
        "x").1.idb (itemKey "x")).map (fun v => v.toItem.Event)
        = some (-6795364578871345152) ∧
      ¬ zmem ((twoFollowers.AddItem allUp (atSecond 100) "a" zeroTime "hello" "" ""
        "x").1.tdb (maybeKey "a" ORDERING_TS)) (eventedItemKey "x")) := by
  decide

/-- C6, amended: after a successful creation of a new item, the evented entry
`eventedItemKey(id)` is present in the author's confirmed timeline and in each
follower's candidate timeline if and only if the event instant passed has
`ets.UnixNano() > 0`, the test of `AddItem`; for an event instant that, when
positive, lies at least one second after the epoch and within the `int64`
range of nanoseconds, that is if and only if the stored `Event` is positive.
When the evented entry is present there are exactly two entries for the item
in that timeline, the evented one scored at `Event` and the default one scored
at `Added`, and stripping the marker from the evented key gives the default
key. -/
theorem C6_evented_entry_iff (s : RedisStore) (down : Nat → Bool) (now : Time)
    (pid : String) (ets : Time) (text link image itemid id : String)
    (hkey : (s.AddItem down now pid ets text link image itemid).2.1 = itemKey id)
    (hnew : s.idb (itemKey id) = none)
    (hfresh : ∀ k, ¬ zmem (s.tdb k) (eventedItemKey id))
    (hok : (s.AddItem down now pid ets text link image itemid).2.2 = none) :
    ∃ item : Item,
      (s.AddItem down now pid ets text link image itemid).1.idb (itemKey id)
        = some (.item item) ∧
      ((ets.UnixNano > 0 → 1 ≤ ets.Unix ∧ ets.Unix * 1000000000 + 1000000000
          ≤ 9223372036854775808) → (ets.UnixNano > 0 ↔ item.Event > 0)) ∧
      stripEventedPrefix (eventedItemKey id) = itemKey id ∧
      ∀ T, (T = maybeKey pid ORDERING_TS ∨
          ∃ f, zmem (s.pdb (followersKey pid)) f ∧ T = possiblyKey f ORDERING_TS) →
        (zmem ((s.AddItem down now pid ets text link image itemid).1.tdb T) (eventedItemKey id)
          ↔ ets.UnixNano > 0) ∧
        (zmem ((s.AddItem down now pid ets text link image itemid).1.tdb T) (eventedItemKey id)
          → entriesOf ((s.AddItem down now pid ets text link image itemid).1.tdb T) id
              = [(eventedItemKey id, item.Event), (itemKey id, item.Added)]) := by
  have h := AddItem_created s down now pid ets text link image itemid id hkey hnew hok
  refine ⟨createdItem now pid ets text link id, h.1, ?_,
    stripEventedPrefix_eventedItemKey id, ?_⟩
  · intro hr
    by_cases hets : ets.UnixNano > 0
    · have hb := tmod_bounds now.UnixNano
      have hEv : (createdItem now pid ets text link id).Event
          = wrap64 (ets.Unix * 1000000000 + Int.tmod now.UnixNano 1000000000) := by
        simp only [createdItem, if_pos hets, subsecond_eq_tmod _ (isInt64_UnixNano now),
          wrap64_wrap_add]
      have hr' := hr hets
      have hfit : isInt64 (ets.Unix * 1000000000 + Int.tmod now.UnixNano 1000000000) := by
        unfold isInt64
        rcases Int.le_total 0 now.UnixNano with h0 | h0
        · have := hb.1 h0; omega
        · have := hb.2 h0; omega
      rw [hEv, wrap64_of_isInt64 hfit]
      constructor
      · intro _
        rcases Int.le_total 0 now.UnixNano with h0 | h0
        · have := hb.1 h0; omega
        · have := hb.2 h0; omega
      · intro _; exact hets
    · simp only [createdItem, if_neg hets]
  · have key : ∀ T, (s.AddItem down now pid ets text link image itemid).1.tdb T
        = withEntries (s.tdb T) (createdItem now pid ets text link id)
            (decide (ets.UnixNano > 0)) (itemKey id) (eventedItemKey id) →
        (zmem ((s.AddItem down now pid ets text link image itemid).1.tdb T) (eventedItemKey id)
          ↔ ets.UnixNano > 0) ∧
        (zmem ((s.AddItem down now pid ets text link image itemid).1.tdb T) (eventedItemKey id)
          → entriesOf ((s.AddItem down now pid ets text link image itemid).1.tdb T) id
              = [(eventedItemKey id, (createdItem now pid ets text link id).Event),
                 (itemKey id, (createdItem now pid ets text link id).Added)]) := by
      intro T hT
      rw [hT]
      have hm := zmem_withEntries_evented (s.tdb T) (createdItem now pid ets text link id)
        (decide (ets.UnixNano > 0)) id (hfresh T)
      refine ⟨hm.trans (by simp), fun hz => ?_⟩
      have hE : decide (ets.UnixNano > 0) = true := hm.mp hz
      rw [hE]
      exact entriesOf_withEntries_event _ _ _
    rintro T (rfl | ⟨f, hf, rfl⟩)
    · exact key _ h.2.2.1
    · exact key _ (h.2.2.2.1 f hf)

/-- C6 amended, at a concrete creation: `a` creates `x` for an event at second 50. -/
theorem C6_evented_entry_iff_witness :
    ∃ item : Item,
      (twoFollowers.AddItem allUp (atSecond 100) "a" (atSecond 50) "hello" "" ""
        "x").1.idb (itemKey "x") = some (.item item) ∧
      (((atSecond 50).UnixNano > 0 → 1 ≤ (atSecond 50).Unix ∧
          (atSecond 50).Unix * 1000000000 + 1000000000 ≤ 9223372036854775808) →
        ((atSecond 50).UnixNano > 0 ↔ item.Event > 0)) ∧
      stripEventedPrefix (eventedItemKey "x") = itemKey "x" ∧
      ∀ T, (T = maybeKey "a" ORDERING_TS ∨
          ∃ f, zmem (twoFollowers.pdb (followersKey "a")) f ∧ T = possiblyKey f ORDERING_TS) →
        (zmem ((twoFollowers.AddItem allUp (atSecond 100) "a" (atSecond 50) "hello" "" ""
            "x").1.tdb T) (eventedItemKey "x") ↔ (atSecond 50).UnixNano > 0) ∧
        (zmem ((twoFollowers.AddItem allUp (atSecond 100) "a" (atSecond 50) "hello" "" ""
            "x").1.tdb T) (eventedItemKey "x")
          → entriesOf ((twoFollowers.AddItem allUp (atSecond 100) "a" (atSecond 50) "hello" ""
              "" "x").1.tdb T) "x"
              = [(eventedItemKey "x", item.Event), (itemKey "x", item.Added)]) :=
  C6_evented_entry_iff twoFollowers allUp (atSecond 100) "a" (atSecond 50) "hello" "" "" "x"
    "x" (by decide) (by decide) (fun _ => by simp [twoFollowers, zmem, zscore]) (by decide)

/-! ## Claims on the follow graph -/

theorem zscore_append (a b : ZSet) (m : String) :
    zscore (a ++ b) m = match zscore a m with
      | some x => some x
      | none => zscore b m := by
  induction a with
  | nil => simp [zscore]
  | cons e rest ih =>
    obtain ⟨k, v⟩ := e
    by_cases hk : k = m
    · simp [zscore, hk]
    · simp [zscore, hk, ih]

theorem zscore_map_snd (a : ZSet) (g : String → Int → Int) (m : String) :
    zscore (a.map (fun e => (e.1, g e.1 e.2))) m = (zscore a m).map (g m) := by
  induction a with
  | nil => simp [zscore]
  | cons e rest ih =>
    obtain ⟨k, v⟩ := e
    by_cases hk : k = m
    · subst hk; simp [zscore]
    · simp [zscore, hk, ih]

theorem zscore_filter_absent (a b : ZSet) (m : String) :
    zscore (b.filter (fun e => (zscore a e.1).isNone)) m
      = if (zscore a m).isNone then zscore b m else none := by
  induction b with
  | nil => simp [zscore]
  | cons e rest ih =>
    obtain ⟨k, v⟩ := e
    by_cases hk : k = m
    · subst hk
      by_cases hn : (zscore a k).isNone = true
      · simp [List.filter_cons, hn, zscore]
      · simp only [List.filter_cons, hn, Bool.false_eq_true, if_false, ih]
    · by_cases hn : (zscore a k).isNone = true
      · simp [List.filter_cons, hn, zscore, hk, ih]
      · simp only [List.filter_cons, hn, Bool.false_eq_true, if_false, ih, zscore, hk]

/-- The score of a member after `ZUNIONSTORE ... AGGREGATE MAX`. -/
theorem zscore_zunionMax (a b : ZSet) (m : String) :
    zscore (zunionMax a b) m = match zscore a m, zscore b m with
      | some x, some y => some (max x y)
      | some x, none => some x
      | none, y => y := by
  unfold zunionMax
  rw [zscore_append,
    zscore_map_snd a (fun k v => match zscore b k with
      | some t => max v t
      | none => v) m,
    zscore_filter_absent]
  cases ha : zscore a m <;> cases hb : zscore b m <;> simp

/-- C7: `Follow` merges by score-wise union with max aggregation.  After a
successful `Follow(a, b)` the candidate timeline of `a` contains exactly the
keys that were in it or in the confirmed timeline of `b` before the call; a key
in both has the larger of its two scores, a key only in the confirmed timeline
of `b` has the score it has there, a key only in the candidate timeline of `a`
keeps its score; and the confirmed timeline of `b` is unchanged. -/
theorem C7_follow_merges_with_max (s : RedisStore) (down : Nat → Bool) (now : Time)
    (a b : String) (hok : (s.Follow down now a b).2 = none) :
    (∀ m, zmem ((s.Follow down now a b).1.tdb (possiblyKey a ORDERING_TS)) m ↔
      (zmem (s.tdb (possiblyKey a ORDERING_TS)) m ∨ zmem (s.tdb (maybeKey b ORDERING_TS)) m)) ∧
    (∀ m x y, zscore (s.tdb (possiblyKey a ORDERING_TS)) m = some x →
      zscore (s.tdb (maybeKey b ORDERING_TS)) m = some y →
      zscore ((s.Follow down now a b).1.tdb (possiblyKey a ORDERING_TS)) m = some (max x y)) ∧
    (∀ m y, zscore (s.tdb (possiblyKey a ORDERING_TS)) m = none →
      zscore (s.tdb (maybeKey b ORDERING_TS)) m = some y →
      zscore ((s.Follow down now a b).1.tdb (possiblyKey a ORDERING_TS)) m = some y) ∧
    (∀ m x, zscore (s.tdb (possiblyKey a ORDERING_TS)) m = some x →
      zscore (s.tdb (maybeKey b ORDERING_TS)) m = none →
      zscore ((s.Follow down now a b).1.tdb (possiblyKey a ORDERING_TS)) m = some x) ∧
    (s.Follow down now a b).1.tdb (maybeKey b ORDERING_TS) = s.tdb (maybeKey b ORDERING_TS) := by
  unfold RedisStore.Follow at hok ⊢
  dsimp only at hok ⊢
  by_cases h0 : down 0 = true
  · simp [h0] at hok
  by_cases h1 : down 1 = true
  · simp [h0, h1] at hok
  by_cases h2 : down 2 = true
  · simp [h0, h1, h2] at hok
  simp only [h0, h1, h2, Bool.false_eq_true, if_false, RedisStore.pZADD, Function.update_same]
  have hz := zscore_zunionMax (s.tdb (possiblyKey a ORDERING_TS)) (s.tdb (maybeKey b ORDERING_TS))
  refine ⟨fun m => ?_, fun m x y hx hy => ?_, fun m y hx hy => ?_, fun m x hx hy => ?_, ?_⟩
  · simp only [zmem, hz m]
    cases zscore (s.tdb (possiblyKey a ORDERING_TS)) m <;>
      cases zscore (s.tdb (maybeKey b ORDERING_TS)) m <;> simp
  · rw [hz m, hx, hy]
  · rw [hz m, hx, hy]
  · rw [hz m, hx, hy]
  · exact Function.update_noteq (possiblyKey_ne_maybeKey a b).symm _ _

/-- C7, at a concrete store: `u` follows `v` in `overlapping`. -/
theorem C7_follow_merges_with_max_witness :
    (∀ m, zmem ((overlapping.Follow allUp (atSecond 100) "u" "v").1.tdb
        (possiblyKey "u" ORDERING_TS)) m ↔
      (zmem (overlapping.tdb (possiblyKey "u" ORDERING_TS)) m ∨
        zmem (overlapping.tdb (maybeKey "v" ORDERING_TS)) m)) ∧
    (∀ m x y, zscore (overlapping.tdb (possiblyKey "u" ORDERING_TS)) m = some x →
      zscore (overlapping.tdb (maybeKey "v" ORDERING_TS)) m = some y →
      zscore ((overlapping.Follow allUp (atSecond 100) "u" "v").1.tdb
        (possiblyKey "u" ORDERING_TS)) m = some (max x y)) ∧
    (∀ m y, zscore (overlapping.tdb (possiblyKey "u" ORDERING_TS)) m = none →
      zscore (overlapping.tdb (maybeKey "v" ORDERING_TS)) m = some y →
      zscore ((overlapping.Follow allUp (atSecond 100) "u" "v").1.tdb
        (possiblyKey "u" ORDERING_TS)) m = some y) ∧
    (∀ m x, zscore (overlapping.tdb (possiblyKey "u" ORDERING_TS)) m = some x →
      zscore (overlapping.tdb (maybeKey "v" ORDERING_TS)) m = none →
      zscore ((overlapping.Follow allUp (atSecond 100) "u" "v").1.tdb
        (possiblyKey "u" ORDERING_TS)) m = some x) ∧
    (overlapping.Follow allUp (atSecond 100) "u" "v").1.tdb (maybeKey "v" ORDERING_TS)
      = overlapping.tdb (maybeKey "v" ORDERING_TS) :=
  C7_follow_merges_with_max overlapping allUp (atSecond 100) "u" "v" (by decide)

theorem zmem_zadd (z : ZSet) (sc : Int) (m m' : String) :
    zmem (zadd z sc m) m' ↔ (m' = m ∨ zmem z m') := by
  unfold zmem
  by_cases h : m' = m
  · subst h; simp [zscore_zadd_same]
  · rw [zscore_zadd_other z sc h]; simp [h]

theorem zmem_zrem (z : ZSet) (m m' : String) :
    zmem (zrem z m) m' ↔ (m' ≠ m ∧ zmem z m') := by
  unfold zmem
  by_cases h : m' = m
  · subst h; simp [zscore_zrem_same]
  · rw [zscore_zrem_other z h]; simp [h]

theorem unfollowLoop_pdb (down : Nat → Bool) (poss_ts : String) (items : List String)
    (s : RedisStore) (n : Nat) : (unfollowLoop down poss_ts items s n).pdb = s.pdb := by
  induction items generalizing s n with
  | nil => rfl
  | cons item rest ih =>
    simp only [unfollowLoop]
    rw [ih]
    split <;> rfl

/-- C8: FollowEdge symmetry is preserved.  If `y` is in the following index of
`x` exactly when `x` is in the followers index of `y`, for all `x` and `y`, the
same holds after every successful `Follow(a, b)` and after every successful
`Unfollow(a, b)`; after `Follow(a, b)` the edge is in both indices with the
same score, and after `Unfollow(a, b)` it is in neither. -/
theorem C8_follow_edge_symmetry (s : RedisStore) (down : Nat → Bool) (now : Time)
    (a b : String) (hsym : FollowSymmetric s) :
    ((s.Follow down now a b).2 = none →
      FollowSymmetric (s.Follow down now a b).1 ∧
      zscore ((s.Follow down now a b).1.pdb (followingKey a)) b = some (followerScore now) ∧
      zscore ((s.Follow down now a b).1.pdb (followersKey b)) a = some (followerScore now)) ∧
    ((s.Unfollow down a b).2 = none →
      FollowSymmetric (s.Unfollow down a b).1 ∧
      ¬ zmem ((s.Unfollow down a b).1.pdb (followingKey a)) b ∧
      ¬ zmem ((s.Unfollow down a b).1.pdb (followersKey b)) a) := by
  constructor
  · intro hok
    unfold RedisStore.Follow at hok ⊢
    dsimp only at hok ⊢
    by_cases h0 : down 0 = true
    · simp [h0] at hok
    by_cases h1 : down 1 = true
    · simp [h0, h1] at hok
    by_cases h2 : down 2 = true
    · simp [h0, h1, h2] at hok
    simp only [h0, h1, h2, Bool.false_eq_true, if_false, RedisStore.pZADD]
    have hne : followingKey a ≠ followersKey b := followingKey_ne_followersKey a b
    refine ⟨fun x y => ?_, ?_, ?_⟩
    · have hxy : followingKey x ≠ followersKey b := followingKey_ne_followersKey x b
      have hyx : followersKey y ≠ followingKey a := (followingKey_ne_followersKey a y).symm
      simp only [Function.update_noteq hxy]
      by_cases hx : x = a
      · subst hx
        by_cases hy : y = b
        · subst hy
          simp [zmem_zadd, Function.update_noteq hne]
        · have hkb : followersKey y ≠ followersKey b := fun hc => hy (followersKey_inj hc)
          simp only [Function.update_same, Function.update_noteq hkb,
            Function.update_noteq hyx, zmem_zadd, hy, false_or]
          exact hsym x y
      · have hka : followingKey x ≠ followingKey a := fun hc => hx (followingKey_inj hc)
        by_cases hy : y = b
        · subst hy
          simp only [Function.update_noteq hka, Function.update_same,
            Function.update_noteq hne.symm, zmem_zadd, hx, false_or]
          exact hsym x y
        · have hkb : followersKey y ≠ followersKey b := fun hc => hy (followersKey_inj hc)
          simp only [Function.update_noteq hka, Function.update_noteq hkb,
            Function.update_noteq hyx]
          exact hsym x y
    · simp [Function.update_noteq hne, zscore_zadd_same]
    · simp [zscore_zadd_same]
  · intro hok
    unfold RedisStore.Unfollow at hok ⊢
    dsimp only at hok ⊢
    by_cases h0 : down 0 = true
    · simp [h0] at hok
    by_cases h1 : down 1 = true
    · simp [h0, h1] at hok
    by_cases h2 : down 2 = true
    · simp [h0, h1, h2] at hok
    simp only [h0, h1, h2, Bool.false_eq_true, if_false, unfollowLoop_pdb, RedisStore.pZREM]
    have hne : followingKey a ≠ followersKey b := followingKey_ne_followersKey a b
    refine ⟨fun x y => ?_, ?_, ?_⟩
    · have hxy : followingKey x ≠ followersKey b := followingKey_ne_followersKey x b
      have hyx : followersKey y ≠ followingKey a := (followingKey_ne_followersKey a y).symm
      simp only [unfollowLoop_pdb, Function.update_noteq hxy]
      by_cases hx : x = a
      · subst hx
        by_cases hy : y = b
        · subst hy
          simp [zmem_zrem, Function.update_noteq hne]
        · have hkb : followersKey y ≠ followersKey b := fun hc => hy (followersKey_inj hc)
          simp only [Function.update_same, Function.update_noteq hkb,
            Function.update_noteq hyx, zmem_zrem, ne_eq, hy, not_false_eq_true, true_and]
          exact hsym x y
      · have hka : followingKey x ≠ followingKey a := fun hc => hx (followingKey_inj hc)
        by_cases hy : y = b
        · subst hy
          simp only [Function.update_noteq hka, Function.update_same,
            Function.update_noteq hne.symm, zmem_zrem, ne_eq, hx, not_false_eq_true, true_and]
          exact hsym x y
        · have hkb : followersKey y ≠ followersKey b := fun hc => hy (followersKey_inj hc)
          simp only [Function.update_noteq hka, Function.update_noteq hkb,
            Function.update_noteq hyx]
          exact hsym x y
    · simp [unfollowLoop_pdb, Function.update_noteq hne, zmem_zrem]
    · simp [unfollowLoop_pdb, zmem_zrem]

theorem twoFollowers_symmetric : FollowSymmetric twoFollowers := by
  intro x y
  have h1 : followingKey x ≠ followersKey "a" := followingKey_ne_followersKey x "a"
  have h2 : followersKey y ≠ followingKey "f1" := (followingKey_ne_followersKey "f1" y).symm
  have h3 : followersKey y ≠ followingKey "f2" := (followingKey_ne_followersKey "f2" y).symm
  have e1 : followingKey x = followingKey "f1" ↔ x = "f1" :=
    ⟨followingKey_inj, fun h => by rw [h]⟩
  have e2 : followingKey x = followingKey "f2" ↔ x = "f2" :=
    ⟨followingKey_inj, fun h => by rw [h]⟩
  have e3 : followersKey y = followersKey "a" ↔ y = "a" :=
    ⟨followersKey_inj, fun h => by rw [h]⟩
  simp only [twoFollowers, h1, h2, h3, e1, e2, e3, if_false, or_self]
  by_cases hy : y = "a"
  · subst hy
    by_cases hx1 : x = "f1"
    · subst hx1; decide
    · by_cases hx2 : x = "f2"
      · subst hx2; decide
      · simp [hx1, hx2, zmem, zscore, Ne.symm hx1, Ne.symm hx2]
  · by_cases hx : x = "f1" ∨ x = "f2"
    · simp [hx, hy, zmem, zscore, Ne.symm hy]
    · simp [hx, hy, zmem, zscore]

/-- C8, at a concrete store: in `twoFollowers`, `f3` follows `a`, and `f1`
unfollows `a`. -/
theorem C8_follow_edge_symmetry_witness :
    (FollowSymmetric (twoFollowers.Follow allUp (atSecond 100) "f3" "a").1 ∧
      zscore ((twoFollowers.Follow allUp (atSecond 100) "f3" "a").1.pdb (followingKey "f3")) "a"
        = some (followerScore (atSecond 100)) ∧
      zscore ((twoFollowers.Follow allUp (atSecond 100) "f3" "a").1.pdb (followersKey "a")) "f3"
        = some (followerScore (atSecond 100))) ∧
    (FollowSymmetric (twoFollowers.Unfollow allUp "f1" "a").1 ∧
      ¬ zmem ((twoFollowers.Unfollow allUp "f1" "a").1.pdb (followingKey "f1")) "a" ∧
      ¬ zmem ((twoFollowers.Unfollow allUp "f1" "a").1.pdb (followersKey "a")) "f1") :=
  ⟨(C8_follow_edge_symmetry twoFollowers allUp (atSecond 100) "f3" "a"
      twoFollowers_symmetric).1 (by decide),
   (C8_follow_edge_symmetry twoFollowers allUp (atSecond 100) "f1" "a"
      twoFollowers_symmetric).2 (by decide)⟩

/-! ## Claims on promotion -/

/-- C9, as stated, fails.  In `afterCreateEvent` the follower `f2` promotes
`x` while the first `ZREM` is not answered: `Promote` ignores that reply and
returns no error, and the candidate timeline of `f2` still contains
`itemKey(x)`.  And in `afterEventCleared`, where the item carries no event,
`a` promotes `x` with every command answered: the confirmed timeline of `a`
contains `eventedItemKey(x)` all the same. -/
theorem C9_counterexample :
    ((afterCreateEvent.Promote (failAt 0) (atSecond 200) "f2" "x").2 = none ∧
      zmem ((afterCreateEvent.Promote (failAt 0) (atSecond 200) "f2" "x").1.tdb
        (possiblyKey "f2" ORDERING_TS)) (itemKey "x")) ∧
    ((afterEventCleared.Promote allUp (atSecond 200) "a" "x").2 = none ∧
      (afterEventCleared.idb (itemKey "x")).map (fun v => v.toItem.Event) = some 0 ∧
      zmem ((afterEventCleared.Promote allUp (atSecond 200) "a" "x").1.tdb
        (maybeKey "a" ORDERING_TS)) (eventedItemKey "x")) := by
  decide

/-- C9, amended: for every `pid` and every `id` of an existing item, after a
successful `Promote(pid, id)` whose two `ZREM` commands were answered (their
replies are ignored by `Promote`), the candidate timeline of `pid` contains
neither `itemKey(id)` nor `eventedItemKey(id)`; the confirmed timeline of `pid`
contains `itemKey(id)` scored at the clock reading of the call, which is not
before the invocation time and is not the item's creation time; when the
stored `Event` is positive the confirmed timeline contains `eventedItemKey(id)`
scored at the stored `Event`, and when it is not, `Promote` leaves the evented
entry of the confirmed timeline as it was (absent if it was absent). -/
theorem C9_promote_postcondition (s : RedisStore) (down : Nat → Bool) (now : Time)
    (pid id : String) (v : Value) (invoked : Int)
    (hbody : s.idb (itemKey id) = some v)
    (hclock : invoked ≤ now.UnixNano)
    (hrem0 : down 0 = false) (hrem1 : down 1 = false)
    (hok : (s.Promote down now pid id).2 = none) :
    ¬ zmem ((s.Promote down now pid id).1.tdb (possiblyKey pid ORDERING_TS)) (itemKey id) ∧
    ¬ zmem ((s.Promote down now pid id).1.tdb (possiblyKey pid ORDERING_TS))
      (eventedItemKey id) ∧
    (∃ sc, zscore ((s.Promote down now pid id).1.tdb (maybeKey pid ORDERING_TS)) (itemKey id)
      = some sc ∧ sc = now.UnixNano ∧ invoked ≤ sc) ∧
    (v.toItem.Event > 0 →
      zscore ((s.Promote down now pid id).1.tdb (maybeKey pid ORDERING_TS)) (eventedItemKey id)
        = some v.toItem.Event) ∧
    (¬ v.toItem.Event > 0 →
      zscore ((s.Promote down now pid id).1.tdb (maybeKey pid ORDERING_TS)) (eventedItemKey id)
        = zscore (s.tdb (maybeKey pid ORDERING_TS)) (eventedItemKey id)) := by
  have hpm : possiblyKey pid ORDERING_TS ≠ maybeKey pid ORDERING_TS :=
    possiblyKey_ne_maybeKey pid pid
  have hke : itemKey id ≠ eventedItemKey id := itemKey_ne_eventedItemKey id id
  unfold RedisStore.Promote at hok ⊢
  dsimp only at hok ⊢
  by_cases h2 : down 2 = true
  · simp [h2] at hok
  by_cases h3 : down 3 = true
  · simp [h2, h3, RedisStore.Item, RedisStore.GET] at hok
  have hItem : ∀ s' : RedisStore, s'.idb = s.idb → s'.Item (down 3) id = .ok v.toItem := by
    intro s' hs'
    simp [RedisStore.Item, RedisStore.GET, h3, hs', hbody]
  rw [hItem _ (by simp [hrem0, hrem1, RedisStore.tZADD, RedisStore.tZREM])] at hok ⊢
  simp only [hrem0, hrem1, h2, Bool.false_eq_true, if_false] at hok ⊢
  by_cases hev : v.toItem.Event > 0
  · by_cases h4 : down 4 = true
    · simp [hev, h4] at hok
    · simp only [hev, h4, if_true, Bool.false_eq_true, if_false, RedisStore.tZADD,
        RedisStore.tZREM, Function.update_same, Function.update_noteq hpm,
        Function.update_noteq hpm.symm]
      refine ⟨?_, ?_, ⟨now.UnixNano, ?_, rfl, hclock⟩, fun _ => ?_,
        fun h => absurd trivial h⟩
      · simp [zmem_zrem, hke]
      · simp [zmem_zrem]
      · rw [zscore_zadd_other _ _ hke, zscore_zadd_same]
      · rw [zscore_zadd_same]
  · simp only [hev, if_false, RedisStore.tZADD, RedisStore.tZREM, Function.update_same,
      Function.update_noteq hpm, Function.update_noteq hpm.symm]
    refine ⟨?_, ?_, ⟨now.UnixNano, ?_, rfl, hclock⟩, fun h => h.elim, fun _ => ?_⟩
    · simp [zmem_zrem, hke]
    · simp [zmem_zrem]
    · rw [zscore_zadd_same]
    · rw [zscore_zadd_other _ _ hke.symm]

/-- C9 amended, at a concrete store: in `afterCreateEvent` the follower `f2`
promotes `x`, invoked at second 150 and reading the clock at second 200. -/
theorem C9_promote_postcondition_witness :
    ¬ zmem ((afterCreateEvent.Promote allUp (atSecond 200) "f2" "x").1.tdb
      (possiblyKey "f2" ORDERING_TS)) (itemKey "x") ∧
    ¬ zmem ((afterCreateEvent.Promote allUp (atSecond 200) "f2" "x").1.tdb
      (possiblyKey "f2" ORDERING_TS)) (eventedItemKey "x") ∧
    (∃ sc, zscore ((afterCreateEvent.Promote allUp (atSecond 200) "f2" "x").1.tdb
      (maybeKey "f2" ORDERING_TS)) (itemKey "x") = some sc ∧
      sc = (atSecond 200).UnixNano ∧ 150000000000 ≤ sc) ∧
    ((Value.item (createdItem (atSecond 100) "a" (atSecond 50) "hello" "" "x")).toItem.Event > 0 →
      zscore ((afterCreateEvent.Promote allUp (atSecond 200) "f2" "x").1.tdb
        (maybeKey "f2" ORDERING_TS)) (eventedItemKey "x")
        = some (Value.item
            (createdItem (atSecond 100) "a" (atSecond 50) "hello" "" "x")).toItem.Event) ∧
    (¬ (Value.item
        (createdItem (atSecond 100) "a" (atSecond 50) "hello" "" "x")).toItem.Event > 0 →
      zscore ((afterCreateEvent.Promote allUp (atSecond 200) "f2" "x").1.tdb
        (maybeKey "f2" ORDERING_TS)) (eventedItemKey "x")
        = zscore (afterCreateEvent.tdb (maybeKey "f2" ORDERING_TS)) (eventedItemKey "x")) :=
  C9_promote_postcondition afterCreateEvent allUp (atSecond 200) "f2" "x"
    (Value.item (createdItem (atSecond 100) "a" (atSecond 50) "hello" "" "x")) 150000000000
    (by decide) (by decide) (by decide) (by decide) (by decide)

/-! ## Claims on range queries -/

theorem zle_total (a b : String × Int) : zle a b ∨ zle b a := by
  unfold zle
  rcases lt_trichotomy a.2 b.2 with h | h | h
  · exact Or.inl (Or.inl h)
  · rcases le_total a.1.data b.1.data with h2 | h2
    · exact Or.inl (Or.inr ⟨h, h2⟩)
    · exact Or.inr (Or.inr ⟨h.symm, h2⟩)
  · exact Or.inr (Or.inl h)

theorem zle_trans {a b c : String × Int} (h1 : zle a b) (h2 : zle b c) : zle a c := by
  unfold zle at *
  rcases h1 with h1 | ⟨h1, h1'⟩ <;> rcases h2 with h2 | ⟨h2, h2'⟩
  · exact Or.inl (lt_trans h1 h2)
  · exact Or.inl (h2 ▸ h1)
  · exact Or.inl (h1 ▸ h2)
  · exact Or.inr ⟨h1.trans h2, le_trans h1' h2'⟩

theorem zle_score {a b : String × Int} (h : zle a b) : a.2 ≤ b.2 := by
  rcases h with h | ⟨h, _⟩
  · exact le_of_lt h
  · exact le_of_eq h

/-- The entries of a sorted set come out in the order of the set. -/
theorem zsorted_sorted (z : ZSet) : List.Pairwise zle (zsorted z) :=
  @List.sorted_insertionSort _ zle _ ⟨zle_total⟩ ⟨fun _ _ _ => zle_trans⟩ z

theorem limit_sublist {α : Type} (count : Int) (l : List α) : (limit count l).Sublist l := by
  unfold limit
  split
  · exact List.Sublist.refl l
  · exact List.take_sublist _ _

theorem limit_length {α : Type} (count : Int) (l : List α) (h : 0 ≤ count) :
    ((limit count l).length : Int) ≤ count := by
  unfold limit
  rw [if_neg (by omega)]
  have := List.length_take_le count.toNat l
  omega

/-- The reply of `ZREVRANGEBYSCORE` is a selection of the set in descending order. -/
theorem zrevrangebyscore_sublist (z : ZSet) (max : Int) (exclusive : Bool) (count : Int) :
    (zrevrangebyscore z max exclusive count).Sublist (zsorted z).reverse :=
  (limit_sublist _ _).trans (List.filter_sublist _)

theorem zrevrangebyscore_descending (z : ZSet) (max : Int) (exclusive : Bool) (count : Int) :
    List.Pairwise (fun a b => a ≥ b) ((zrevrangebyscore z max exclusive count).map Prod.snd) := by
  have h1 : List.Pairwise (fun a b => zle b a) (zsorted z).reverse :=
    List.pairwise_reverse.mpr (zsorted_sorted z)
  have h2 := List.Pairwise.sublist (zrevrangebyscore_sublist z max exclusive count) h1
  rw [List.pairwise_map]
  exact h2.imp (fun h => zle_score h)

theorem zrevrangebyscore_le (z : ZSet) (max : Int) (exclusive : Bool) (count : Int) :
    ∀ e ∈ zrevrangebyscore z max exclusive count, e.2 ≤ max := by
  intro e he
  have h1 := (limit_sublist _ _).subset he
  have h2 := (List.mem_filter.mp h1).2
  cases exclusive
  · simpa using h2
  · exact le_of_lt (by simpa using h2)

theorem zrevrangebyscore_length (z : ZSet) (max : Int) (exclusive : Bool) (count : Int)
    (h : 0 ≤ count) : ((zrevrangebyscore z max exclusive count).length : Int) ≤ count :=
  limit_length _ _ h

/-- The items of a page are, in order, those of the entries whose body could
be read, each with the score of its entry. -/
theorem formatItems_sublist (s : RedisStore) (down : Nat → Bool) (l : List (String × Int))
    (n : Nat) : ((formatItems s down l n).map (fun it => it.Ts)).Sublist (l.map Prod.snd) := by
  induction l generalizing n with
  | nil => simp [formatItems]
  | cons e rest ih =>
    obtain ⟨key, score⟩ := e
    simp only [formatItems]
    cases s.GET (down n) (stripEventedPrefix key) with
    | error _ => exact (ih (n + 1)).trans (List.sublist_cons_self _ _)
    | ok v =>
      simp only [List.map_cons]
      exact List.Sublist.cons₂ _ (ih (n + 1))

/-- C10, as stated, fails: the confirmed timeline of `a` in `tiedEvents` holds
the evented entries of `x` and `y` at one score, and the page before second 60
returns both, so its scores are not strictly descending. -/
theorem C10_counterexample :
    (tiedEvents.TimelineRange allUp "a" "m" (atSecond 60) 5 0).2 = none ∧
    (tiedEvents.TimelineRange allUp "a" "m" (atSecond 60) 5 0).1.map (fun it => it.Ts)
      = [50000000000, 50000000000, 2000000000, 1000000000] ∧
    ¬ List.Pairwise (fun a b : Int => a > b)
      ((tiedEvents.TimelineRange allUp "a" "m" (atSecond 60) 5 0).1.map (fun it => it.Ts)) := by
  decide

/-- C10, amended: for every timeline, every reference time `ts` and every
`before >= 0`, `TimelineRange(pid, status, ts, before, 0)` returns at most
`before + 1` entries, their scores (`Ts`) are in non-increasing order (equal
scores can follow one another), and no returned entry has a score above the
reference score of `ts`. -/
theorem C10_before_only_page (s : RedisStore) (down : Nat → Bool) (pid status : String)
    (ts : Time) (before : Int) (hbefore : 0 ≤ before) :
    ((s.TimelineRange down pid status ts before 0).1.length : Int) ≤ before + 1 ∧
    List.Pairwise (fun a b : Int => a ≥ b)
      ((s.TimelineRange down pid status ts before 0).1.map (fun it => it.Ts)) ∧
    ∀ it ∈ (s.TimelineRange down pid status ts before 0).1, it.Ts ≤ itemScore ts := by
  unfold RedisStore.TimelineRange
  simp only [gt_iff_lt, lt_self_iff_false, false_and, if_false, List.reverse_nil,
    List.length_nil, decide_False, List.nil_append, zero_add]
  by_cases h0 : down 0 = true
  · simp only [h0, if_true]
    exact ⟨by simp; omega, by simp, by simp⟩
  · simp only [h0, Bool.false_eq_true, if_false]
    generalize hk : (if status = "p" then possiblyKey pid "ts" else maybeKey pid "ts") = key
    have hsub := formatItems_sublist s down
      (zrevrangebyscore (s.tdb key) (itemScore ts) false (before + 1)) 1
    refine ⟨?_, ?_, ?_⟩
    · have h1 := hsub.length_le
      simp only [List.length_map] at h1
      have h2 := zrevrangebyscore_length (s.tdb key) (itemScore ts) false (before + 1)
        (by omega)
      omega
    · exact List.Pairwise.sublist hsub (zrevrangebyscore_descending _ _ _ _)
    · intro it hit
      have hm : it.Ts ∈ (formatItems s down
          (zrevrangebyscore (s.tdb key) (itemScore ts) false (before + 1)) 1).map
            (fun it => it.Ts) := List.mem_map.mpr ⟨it, hit, rfl⟩
      obtain ⟨e, he, hes⟩ := List.mem_map.mp (hsub.subset hm)
      rw [← hes]
      exact zrevrangebyscore_le _ _ _ _ e he

/-- C10 amended, at a concrete page: the five entries before second 60 of the
confirmed timeline of `a` in `tiedEvents`. -/
theorem C10_before_only_page_witness :
    ((tiedEvents.TimelineRange allUp "a" "m" (atSecond 60) 5 0).1.length : Int) ≤ 5 + 1 ∧
    List.Pairwise (fun a b : Int => a ≥ b)
      ((tiedEvents.TimelineRange allUp "a" "m" (atSecond 60) 5 0).1.map (fun it => it.Ts)) ∧
    ∀ it ∈ (tiedEvents.TimelineRange allUp "a" "m" (atSecond 60) 5 0).1,
      it.Ts ≤ itemScore (atSecond 60) :=
  C10_before_only_page tiedEvents allUp "a" "m" (atSecond 60) 5 (by decide)

/-! ## Referential integrity of evented entries

Every operation that writes to a timeline keeps `EventedEntriesResolve`,
whichever of its commands fail.  So in a store built by these operations an
item with no body has no evented entry in any timeline, which is how the
claims on creation read "a new item". -/

theorem fresh_of_resolve {s : RedisStore} (h : EventedEntriesResolve s) {id : String}
    (hnew : s.idb (itemKey id) = none) : ∀ k, ¬ zmem (s.tdb k) (eventedItemKey id) :=
  fun k hz => h k id hz hnew

theorem emptyStore_resolve : EventedEntriesResolve emptyStore := by
  intro k id hz
  simp [emptyStore, zmem, zscore] at hz

theorem zmem_zunionMax (a b : ZSet) (m : String) :
    zmem (zunionMax a b) m ↔ (zmem a m ∨ zmem b m) := by
  simp only [zmem, zscore_zunionMax]
  cases zscore a m <;> cases zscore b m <;> simp

theorem tZADD_mem (s : RedisStore) (key : String) (sc : Int) (member x m : String)
    (h : zmem ((s.tZADD key sc member).tdb x) m) : m = member ∨ zmem (s.tdb x) m := by
  unfold RedisStore.tZADD at h
  dsimp only at h
  by_cases hx : x = key
  · subst hx
    simpa [zmem_zadd] using h
  · rw [Function.update_noteq hx] at h
    exact Or.inr h

theorem tZREM_mem (s : RedisStore) (key : String) (member x m : String)
    (h : zmem ((s.tZREM key member).tdb x) m) : zmem (s.tdb x) m := by
  unfold RedisStore.tZREM at h
  dsimp only at h
  by_cases hx : x = key
  · subst hx
    rw [Function.update_same, zmem_zrem] at h
    exact h.2
  · rw [Function.update_noteq hx] at h
    exact h

theorem writeEntries_mem (s : RedisStore) (down : Nat → Bool) (n : Nat) (key : String)
    (item : Item) (isEvent : Bool) (k k' x m : String)
    (h : zmem ((writeEntries s down n key item isEvent k k').1.tdb x) m) :
    m = k ∨ m = k' ∨ zmem (s.tdb x) m := by
  unfold writeEntries at h
  by_cases h0 : down n = true
  · simp only [h0, if_true] at h
    exact Or.inr (Or.inr h)
  · simp only [h0, Bool.false_eq_true, if_false] at h
    by_cases hE : isEvent = true
    · by_cases h1 : down (n + 1) = true
      · simp only [hE, h1, if_true] at h
        rcases tZADD_mem _ _ _ _ _ _ h with h | h
        · exact Or.inl h
        · exact Or.inr (Or.inr h)
      · simp only [hE, h1, if_true, Bool.false_eq_true, if_false] at h
        rcases tZADD_mem _ _ _ _ _ _ h with h | h
        · exact Or.inr (Or.inl h)
        · rcases tZADD_mem _ _ _ _ _ _ h with h | h
          · exact Or.inl h
          · exact Or.inr (Or.inr h)
    · simp only [hE, Bool.false_eq_true, if_false] at h
      rcases tZADD_mem _ _ _ _ _ _ h with h | h
      · exact Or.inl h
      · exact Or.inr (Or.inr h)

theorem fanOut_mem (down : Nat → Bool) (item : Item) (isEvent : Bool) (k k' : String)
    (L : List String) (s : RedisStore) (n : Nat) (x m : String)
    (h : zmem ((fanOut down item isEvent k k' L s n).1.tdb x) m) :
    m = k ∨ m = k' ∨ zmem (s.tdb x) m := by
  induction L generalizing s n with
  | nil => exact Or.inr (Or.inr h)
  | cons f rest ih =>
    have hw := writeEntries_mem s down n (possiblyKey f ORDERING_TS) item isEvent k k' x m
    rcases hr : writeEntries s down n (possiblyKey f ORDERING_TS) item isEvent k k'
      with ⟨s1, n1, e⟩
    rw [hr] at hw
    simp only [fanOut, hr] at h
    cases e with
    | some e => exact hw h
    | none =>
      rcases ih s1 n1 h with h | h | h
      · exact Or.inl h
      · exact Or.inr (Or.inl h)
      · exact hw h

theorem addItemWrites_shape (s : RedisStore) (down : Nat → Bool) (n : Nat) (pid : String)
    (item : Item) (isEvent : Bool) (itemid : String) (h0 : down n = false) :
    (addItemWrites s down n pid item isEvent itemid).1.idb
      = Function.update s.idb (itemKey itemid) (some (.item item)) ∧
    ∀ x m, zmem ((addItemWrites s down n pid item isEvent itemid).1.tdb x) m →
      m = itemKey itemid ∨ m = eventedItemKey itemid ∨ zmem (s.tdb x) m := by
  unfold addItemWrites
  dsimp only
  simp only [h0, Bool.false_eq_true, if_false]
  have hf := writeEntries_frame
    { s with idb := Function.update s.idb (itemKey itemid) (some (.item item)) }
    down (n + 1) (maybeKey pid ORDERING_TS) item isEvent (itemKey itemid) (eventedItemKey itemid)
  have hm := writeEntries_mem
    { s with idb := Function.update s.idb (itemKey itemid) (some (.item item)) }
    down (n + 1) (maybeKey pid ORDERING_TS) item isEvent (itemKey itemid) (eventedItemKey itemid)
  rcases hw : writeEntries
    { s with idb := Function.update s.idb (itemKey itemid) (some (.item item)) }
    down (n + 1) (maybeKey pid ORDERING_TS) item isEvent (itemKey itemid) (eventedItemKey itemid)
    with ⟨s2, n2, e⟩
  rw [hw] at hf hm
  have hidb2 : s2.idb = Function.update s.idb (itemKey itemid) (some (.item item)) := hf.1
  have hmem2 : ∀ x m, zmem (s2.tdb x) m →
      m = itemKey itemid ∨ m = eventedItemKey itemid ∨ zmem (s.tdb x) m := hm
  cases e with
  | some e => exact ⟨hidb2, hmem2⟩
  | none =>
    dsimp only
    by_cases h2 : down n2 = true
    · simp only [h2, if_true]
      exact ⟨hidb2, hmem2⟩
    · simp only [h2, Bool.false_eq_true, if_false]
      have hg := fanOut_frame down item isEvent (itemKey itemid) (eventedItemKey itemid)
        (zrange (s2.pdb (followersKey pid))) s2 (n2 + 1)
      have hgm := fanOut_mem down item isEvent (itemKey itemid) (eventedItemKey itemid)
        (zrange (s2.pdb (followersKey pid))) s2 (n2 + 1)
      rcases hfo : fanOut down item isEvent (itemKey itemid) (eventedItemKey itemid)
        (zrange (s2.pdb (followersKey pid))) s2 (n2 + 1) with ⟨s3, n3, e3⟩
      rw [hfo] at hg hgm
      have hidb3 : s3.idb = Function.update s.idb (itemKey itemid) (some (.item item)) :=
        hg.1.trans hidb2
      have hmem3 : ∀ x m, zmem (s3.tdb x) m →
          m = itemKey itemid ∨ m = eventedItemKey itemid ∨ zmem (s.tdb x) m := by
        intro x m hz
        rcases hgm x m hz with h | h | h
        · exact Or.inl h
        · exact Or.inr (Or.inl h)
        · exact hmem2 x m h
      cases e3 with
      | some e => exact ⟨hidb3, hmem3⟩
      | none =>
        dsimp only
        by_cases hl : item.Link ≠ "" ∧ item.Image = ""
        · rw [if_pos hl]
          by_cases h3 : down n3 = true
          · rw [if_pos h3]; exact ⟨hidb3, hmem3⟩
          · rw [if_neg h3]; exact ⟨hidb3, hmem3⟩
        · rw [if_neg hl]; exact ⟨hidb3, hmem3⟩

theorem addItemWithId_resolve (s : RedisStore) (down : Nat → Bool) (n : Nat) (now : Time)
    (pid : String) (ets : Time) (text link itemid : String) (h : EventedEntriesResolve s) :
    EventedEntriesResolve (addItemWithId s down n now pid ets text link itemid).1 := by
  unfold addItemWithId
  dsimp only
  by_cases hex : (s.ItemExists (down n) itemid).1 = true
  · rw [if_pos hex]; exact h
  · rw [if_neg hex]
    by_cases h0 : down (n + 1) = true
    · unfold addItemWrites
      simp only [h0, if_true]
      exact h
    · have hs := addItemWrites_shape s down (n + 1) pid
        (createdItem now pid ets text link itemid) (decide (ets.UnixNano > 0)) itemid
        (by simpa using h0)
      intro k id hz
      have hz' := hs.2 k _ hz
      have hidb := hs.1
      unfold createdItem at hidb hz'
      rw [hidb]
      rcases hz' with h1 | h1 | h1
      · exact absurd h1.symm (itemKey_ne_eventedItemKey itemid id)
      · rw [eventedItemKey_inj h1, Function.update_same]; simp
      · by_cases hk : itemKey id = itemKey itemid
        · rw [hk, Function.update_same]; simp
        · rw [Function.update_noteq hk]; exact h k id h1

theorem INCR_some {idb idb' : String → Option Value} {key : String} {seq : Int}
    (h : INCR idb key = .ok (idb', seq)) : ∀ x, idb x ≠ none → idb' x ≠ none := by
  intro x hx
  by_cases hk : x = key
  · subst hk
    unfold INCR at h
    split at h
    · cases h; simp
    · split at h
      · cases h; simp
      · cases h
    · cases h
  · rw [INCR_frame h x hk]; exact hx

theorem AddItem_resolve (s : RedisStore) (down : Nat → Bool) (now : Time) (pid : String)
    (ets : Time) (text link image itemid : String) (h : EventedEntriesResolve s) :
    EventedEntriesResolve (s.AddItem down now pid ets text link image itemid).1 := by
  unfold RedisStore.AddItem
  by_cases he : itemid = ""
  · rw [if_pos he]
    by_cases h0 : down 0 = true
    · rw [if_pos h0]; exact h
    · rw [if_neg h0]
      rcases hi : INCR s.idb (itemSeqKey pid) with e | ⟨idb', seq⟩
      · exact h
      · dsimp only
        apply addItemWithId_resolve
        intro k id hz
        exact INCR_some hi _ (h k id hz)
  · rw [if_neg he]
    exact addItemWithId_resolve _ _ _ _ _ _ _ _ _ h

theorem UpdateItem_resolve (s : RedisStore) (down : Bool) (item : Item)
    (h : EventedEntriesResolve s) : EventedEntriesResolve (s.UpdateItem down item).1 := by
  unfold RedisStore.UpdateItem
  cases down
  · intro k id hz
    simp only [Bool.false_eq_true, if_false] at hz ⊢
    by_cases hk : itemKey id = itemKey item.Id
    · rw [hk, Function.update_same]; simp
    · rw [Function.update_noteq hk]; exact h k id hz
  · exact h

theorem Follow_resolve (s : RedisStore) (down : Nat → Bool) (now : Time) (a b : String)
    (h : EventedEntriesResolve s) : EventedEntriesResolve (s.Follow down now a b).1 := by
  unfold RedisStore.Follow
  dsimp only
  by_cases h0 : down 0 = true
  · rw [if_pos h0]; exact h
  rw [if_neg h0]
  by_cases h1 : down 1 = true
  · rw [if_pos h1]; exact h
  rw [if_neg h1]
  by_cases h2 : down 2 = true
  · rw [if_pos h2]; exact h
  rw [if_neg h2]
  intro k id hz
  simp only [RedisStore.pZADD] at hz ⊢
  by_cases hk : k = possiblyKey a ORDERING_TS
  · subst hk
    rw [Function.update_same, zmem_zunionMax] at hz
    rcases hz with hz | hz
    · exact h _ id hz
    · exact h _ id hz
  · rw [Function.update_noteq hk] at hz
    exact h k id hz

theorem unfollowLoop_resolve (down : Nat → Bool) (poss_ts : String) (items : List String)
    (s : RedisStore) (n : Nat) (h : EventedEntriesResolve s) :
    EventedEntriesResolve (unfollowLoop down poss_ts items s n) := by
  induction items generalizing s n with
  | nil => exact h
  | cons item rest ih =>
    simp only [unfollowLoop]
    apply ih
    by_cases hd : down n = true
    · rw [if_pos hd]; exact h
    · rw [if_neg hd]
      intro k id hz
      exact h k id (tZREM_mem _ _ _ _ _ hz)

theorem Unfollow_resolve (s : RedisStore) (down : Nat → Bool) (a b : String)
    (h : EventedEntriesResolve s) : EventedEntriesResolve (s.Unfollow down a b).1 := by
  unfold RedisStore.Unfollow
  dsimp only
  by_cases h0 : down 0 = true
  · rw [if_pos h0]; exact h
  rw [if_neg h0]
  by_cases h1 : down 1 = true
  · rw [if_pos h1]; exact h
  rw [if_neg h1]
  by_cases h2 : down 2 = true
  · rw [if_pos h2]; exact h
  rw [if_neg h2]
  exact unfollowLoop_resolve _ _ _ _ _ h

/-- The shared tail of `Promote` and `Demote`: the item is read and its evented
entry written only when the body is there. -/
theorem moveTail_resolve (s3 : RedisStore) (down : Nat → Bool) (key id : String)
    (h : EventedEntriesResolve s3) :
    EventedEntriesResolve
      (match s3.Item (down 3) id with
        | .error e => (s3, some e)
        | .ok item =>
          if item.Event > 0 then
            if down 4 then (s3, some Err.storeUnavailable)
            else (s3.tZADD key item.Event (eventedItemKey id), none)
          else (s3, none)).1 := by
  unfold RedisStore.Item RedisStore.GET
  by_cases h3 : down 3 = true
  · simp only [h3, if_true]; exact h
  · simp only [h3, Bool.false_eq_true, if_false]
    cases hb : s3.idb (itemKey id) with
    | none => exact h
    | some v =>
      dsimp only
      by_cases hev : v.toItem.Event > 0
      · rw [if_pos hev]
        by_cases h4 : down 4 = true
        · rw [if_pos h4]; exact h
        · rw [if_neg h4]
          intro k id' hz
          rcases tZADD_mem _ _ _ _ _ _ hz with h1 | h1
          · have : (s3.tZADD key v.toItem.Event (eventedItemKey id)).idb = s3.idb := rfl
            rw [this, eventedItemKey_inj h1, hb]; simp
          · exact h k id' h1
      · rw [if_neg hev]; exact h

theorem Promote_resolve (s : RedisStore) (down : Nat → Bool) (now : Time) (pid id : String)
    (h : EventedEntriesResolve s) : EventedEntriesResolve (s.Promote down now pid id).1 := by
  unfold RedisStore.Promote
  dsimp only
  have h1 : EventedEntriesResolve
      (if down 0 = true then s else s.tZREM (possiblyKey pid ORDERING_TS) (itemKey id)) := by
    split
    · exact h
    · exact fun k id' hz => h k id' (tZREM_mem _ _ _ _ _ hz)
  have h2 : EventedEntriesResolve
      (if down 1 = true then
        (if down 0 = true then s else s.tZREM (possiblyKey pid ORDERING_TS) (itemKey id))
      else (if down 0 = true then s
        else s.tZREM (possiblyKey pid ORDERING_TS) (itemKey id)).tZREM
          (possiblyKey pid ORDERING_TS) (eventedItemKey id)) := by
    split
    · exact h1
    · exact fun k id' hz => h1 k id' (tZREM_mem _ _ _ _ _ hz)
  by_cases hd : down 2 = true
  · rw [if_pos hd]; exact h2
  · rw [if_neg hd]
    apply moveTail_resolve
    intro k id' hz
    rcases tZADD_mem _ _ _ _ _ _ hz with h3 | h3
    · exact absurd h3.symm (itemKey_ne_eventedItemKey id id')
    · exact h2 k id' h3

theorem Demote_resolve (s : RedisStore) (down : Nat → Bool) (now : Time) (pid id : String)
    (h : EventedEntriesResolve s) : EventedEntriesResolve (s.Demote down now pid id).1 := by
  unfold RedisStore.Demote
  dsimp only
  by_cases h0 : down 0 = true
  · rw [if_pos h0]; exact h
  rw [if_neg h0]
  by_cases h1 : down 1 = true
  · rw [if_pos h1]; exact fun k id' hz => h k id' (tZREM_mem _ _ _ _ _ hz)
  rw [if_neg h1]
  have h2 : EventedEntriesResolve
      ((s.tZREM (maybeKey pid ORDERING_TS) (itemKey id)).tZREM (maybeKey pid ORDERING_TS)
        (eventedItemKey id)) :=
    fun k id' hz => h k id' (tZREM_mem _ _ _ _ _ (tZREM_mem _ _ _ _ _ hz))
  by_cases hd : down 2 = true
  · rw [if_pos hd]; exact h2
  · rw [if_neg hd]
    apply moveTail_resolve
    intro k id' hz
    rcases tZADD_mem _ _ _ _ _ _ hz with h3 | h3
    · exact absurd h3.symm (itemKey_ne_eventedItemKey id id')
    · exact h2 k id' h3

/-! ## Claims on the two halves of a page -/

/-- With both range commands answered, the page is read off the after-half
followed by the before-half. -/
theorem TimelineRange_entries (s : RedisStore) (down : Nat → Bool) (pid status : String)
    (ts : Time) (before after : Int) (hafter : 0 < after)
    (hup0 : down 0 = false) (hup1 : down 1 = false) :
    s.TimelineRange down pid status ts before after
      = (formatItems s down
          (afterHalf (s.tdb (timelineKey pid status)) (itemScore ts) after
            ++ beforeHalf (s.tdb (timelineKey pid status)) (itemScore ts) before after) 2,
          none) := by
  unfold RedisStore.TimelineRange afterHalf beforeHalf afterHalf timelineKey
  simp [hafter, hup0, hup1]

theorem afterHalf_eq (z : ZSet) (score : Int) (after : Int) (hafter : 0 < after) :
    afterHalf z score after = ((atOrAbove z score).take after.toNat).reverse := by
  unfold afterHalf zrangebyscore limit atOrAbove
  rw [if_pos hafter, if_neg (by omega)]

/-- The after-half holds `after` entries, or all the entries at or above the
reference score when they are fewer. -/
theorem afterHalf_length (z : ZSet) (score : Int) (after : Int) (hafter : 0 < after) :
    (afterHalf z score after).length = min after.toNat (atOrAbove z score).length := by
  rw [afterHalf_eq z score after hafter, List.length_reverse, List.length_take]

theorem afterHalf_sublist (z : ZSet) (score : Int) (after : Int) :
    (afterHalf z score after).Sublist (zsorted z).reverse := by
  unfold afterHalf
  apply List.Sublist.reverse
  split
  · exact (limit_sublist _ _).trans (List.filter_sublist _)
  · exact List.nil_sublist _

theorem afterHalf_ge (z : ZSet) (score : Int) (after : Int) :
    ∀ e ∈ afterHalf z score after, score ≤ e.2 := by
  intro e he
  unfold afterHalf at he
  rw [List.mem_reverse] at he
  split at he
  · have h1 := (limit_sublist _ _).subset he
    simpa using (List.mem_filter.mp h1).2
  · simp at he

theorem zrevrangebyscore_lt (z : ZSet) (max : Int) (count : Int) :
    ∀ e ∈ zrevrangebyscore z max true count, e.2 < max := by
  intro e he
  have h1 := (limit_sublist _ _).subset he
  simpa using (List.mem_filter.mp h1).2

theorem zsorted_wf (z : ZSet) (h : z.WF) : ((zsorted z).map Prod.fst).Nodup :=
  ((List.perm_insertionSort zle z).map Prod.fst).nodup_iff.mpr h

/-- In a sorted set a member has one score. -/
theorem wf_score_unique (z : ZSet) (h : z.WF) {a b : String × Int} (ha : a ∈ z) (hb : b ∈ z)
    (hab : a.1 = b.1) : a = b :=
  List.inj_on_of_nodup_map h ha hb hab

theorem mem_zsorted (z : ZSet) (e : String × Int) : e ∈ zsorted z ↔ e ∈ z :=
  (List.perm_insertionSort zle z).mem_iff

theorem afterHalf_descending (z : ZSet) (score : Int) (after : Int) :
    List.Pairwise (fun a b => a ≥ b) ((afterHalf z score after).map Prod.snd) := by
  have h1 : List.Pairwise (fun a b => zle b a) (zsorted z).reverse :=
    List.pairwise_reverse.mpr (zsorted_sorted z)
  have h2 := List.Pairwise.sublist (afterHalf_sublist z score after) h1
  rw [List.pairwise_map]
  exact h2.imp (fun h => zle_score h)

theorem beforeHalf_sublist (z : ZSet) (score : Int) (before after : Int) :
    (beforeHalf z score before after).Sublist (zsorted z).reverse :=
  zrevrangebyscore_sublist _ _ _ _

/-- The bound of the before-half: exclusive when the after-half holds an
entry, inclusive when it holds none. -/
theorem beforeHalf_bound (z : ZSet) (score : Int) (before after : Int) :
    (afterHalf z score after ≠ [] → ∀ e ∈ beforeHalf z score before after, e.2 < score) ∧
    (afterHalf z score after = [] →
      ∀ e ∈ beforeHalf z score before after, e.2 ≤ score) := by
  constructor
  · intro hne e he
    have hlen : decide ((afterHalf z score after).length > 0) = true := by
      simpa using List.length_pos.mpr hne
    unfold beforeHalf at he
    rw [hlen] at he
    exact zrevrangebyscore_lt _ _ _ e he
  · intro _ e he
    exact zrevrangebyscore_le _ _ _ _ e he

/-- C11, at the failing input.  In `tiedEvents` four entries of the confirmed
timeline of `a` have a score at or above that of second 1.  For `after = 1`
the after-half `TimelineRange` assembles holds one entry, the lowest-scored,
where `min(after + 1, n)` is two; the before-half is empty and the page
returned holds that one entry. -/
theorem C11_after_half_one_short :
    (atOrAbove (tiedEvents.tdb (timelineKey "a" "m")) (itemScore (atSecond 1))).length = 4 ∧
    afterHalf (tiedEvents.tdb (timelineKey "a" "m")) (itemScore (atSecond 1)) 1
      = [(itemKey "x", 1000000000)] ∧
    (afterHalf (tiedEvents.tdb (timelineKey "a" "m")) (itemScore (atSecond 1)) 1).length
      ≠ min (1 + 1) 4 ∧
    beforeHalf (tiedEvents.tdb (timelineKey "a" "m")) (itemScore (atSecond 1)) 0 1 = [] ∧
    (tiedEvents.TimelineRange allUp "a" "m" (atSecond 1) 0 1).2 = none ∧
    (tiedEvents.TimelineRange allUp "a" "m" (atSecond 1) 0 1).1.map (fun it => it.Ts)
      = [1000000000] := by
  decide

/-- C12: boundary-exact concatenation.  For every timeline, reference time,
`before` and `after > 0`, with both range commands answered, the entry list
`TimelineRange` assembles and formats is the after-half followed by the
before-half; every after-half entry has a score at or above the reference
score; every before-half entry has a score strictly below it when the
after-half is not empty, and at or below it when the after-half is empty; so no
member of the timeline is emitted twice, and the whole list, as the page
returned, is in non-increasing score order. -/
theorem C12_boundary_exact_concatenation (s : RedisStore) (down : Nat → Bool)
    (pid status : String) (ts : Time) (before after : Int) (hafter : 0 < after)
    (hup0 : down 0 = false) (hup1 : down 1 = false)
    (hwf : (s.tdb (timelineKey pid status)).WF) :
    s.TimelineRange down pid status ts before after
      = (formatItems s down
          (afterHalf (s.tdb (timelineKey pid status)) (itemScore ts) after
            ++ beforeHalf (s.tdb (timelineKey pid status)) (itemScore ts) before after) 2,
          none) ∧
    (∀ e ∈ afterHalf (s.tdb (timelineKey pid status)) (itemScore ts) after,
      itemScore ts ≤ e.2) ∧
    (afterHalf (s.tdb (timelineKey pid status)) (itemScore ts) after ≠ [] →
      ∀ e ∈ beforeHalf (s.tdb (timelineKey pid status)) (itemScore ts) before after,
        e.2 < itemScore ts) ∧
    (afterHalf (s.tdb (timelineKey pid status)) (itemScore ts) after = [] →
      ∀ e ∈ beforeHalf (s.tdb (timelineKey pid status)) (itemScore ts) before after,
        e.2 ≤ itemScore ts) ∧
    ((afterHalf (s.tdb (timelineKey pid status)) (itemScore ts) after
      ++ beforeHalf (s.tdb (timelineKey pid status)) (itemScore ts) before after).map
        Prod.fst).Nodup ∧
    List.Pairwise (fun a b : Int => a ≥ b)
      ((afterHalf (s.tdb (timelineKey pid status)) (itemScore ts) after
        ++ beforeHalf (s.tdb (timelineKey pid status)) (itemScore ts) before after).map
          Prod.snd) ∧
    List.Pairwise (fun a b : Int => a ≥ b)
      ((s.TimelineRange down pid status ts before after).1.map (fun it => it.Ts)) := by
  generalize hz : s.tdb (timelineKey pid status) = z at hwf
  have hlink := TimelineRange_entries s down pid status ts before after hafter hup0 hup1
  rw [hz] at hlink
  have hge := afterHalf_ge z (itemScore ts) after
  have hbound := beforeHalf_bound z (itemScore ts) before after
  have hpair : List.Pairwise (fun a b : Int => a ≥ b)
      ((afterHalf z (itemScore ts) after ++ beforeHalf z (itemScore ts) before after).map
        Prod.snd) := by
    rw [List.map_append, List.pairwise_append]
    refine ⟨afterHalf_descending _ _ _, zrevrangebyscore_descending _ _ _ _, ?_⟩
    intro x hx y hy
    obtain ⟨a, ha, rfl⟩ := List.mem_map.mp hx
    obtain ⟨b, hb, rfl⟩ := List.mem_map.mp hy
    have h1 := hge a ha
    have h2 : b.2 ≤ itemScore ts := zrevrangebyscore_le _ _ _ _ b hb
    exact le_trans h2 h1
  have hrev : ((zsorted z).reverse.map Prod.fst).Nodup := by
    rw [List.map_reverse, List.nodup_reverse]
    exact zsorted_wf z hwf
  refine ⟨hlink, hge, hbound.1, hbound.2, ?_, hpair, ?_⟩
  · rw [List.map_append, List.nodup_append]
    refine ⟨List.Nodup.sublist ((afterHalf_sublist z _ _).map _) hrev,
      List.Nodup.sublist ((beforeHalf_sublist z _ _ _).map _) hrev, ?_⟩
    intro m hma hmb
    obtain ⟨a, ha, rfl⟩ := List.mem_map.mp hma
    obtain ⟨b, hb, hba⟩ := List.mem_map.mp hmb
    have haz : a ∈ z :=
      (mem_zsorted z a).mp (List.mem_reverse.mp ((afterHalf_sublist z _ _).subset ha))
    have hbz : b ∈ z :=
      (mem_zsorted z b).mp (List.mem_reverse.mp ((beforeHalf_sublist z _ _ _).subset hb))
    have hab : b = a := wf_score_unique z hwf hbz haz hba
    have h1 := hge a ha
    have h2 := hbound.1 (List.ne_nil_of_mem ha) b hb
    rw [hab] at h2
    omega
  · rw [hlink]
    exact List.Pairwise.sublist (formatItems_sublist s down _ 2) hpair

/-- C12, at a concrete page: one entry after and five before second 2 of the
confirmed timeline of `a` in `tiedEvents`. -/
theorem C12_boundary_exact_concatenation_witness :
    tiedEvents.TimelineRange allUp "a" "m" (atSecond 2) 5 1
      = (formatItems tiedEvents allUp
          (afterHalf (tiedEvents.tdb (timelineKey "a" "m")) (itemScore (atSecond 2)) 1
            ++ beforeHalf (tiedEvents.tdb (timelineKey "a" "m")) (itemScore (atSecond 2)) 5 1) 2,
          none) ∧
    (∀ e ∈ afterHalf (tiedEvents.tdb (timelineKey "a" "m")) (itemScore (atSecond 2)) 1,
      itemScore (atSecond 2) ≤ e.2) ∧
    (afterHalf (tiedEvents.tdb (timelineKey "a" "m")) (itemScore (atSecond 2)) 1 ≠ [] →
      ∀ e ∈ beforeHalf (tiedEvents.tdb (timelineKey "a" "m")) (itemScore (atSecond 2)) 5 1,
        e.2 < itemScore (atSecond 2)) ∧
    (afterHalf (tiedEvents.tdb (timelineKey "a" "m")) (itemScore (atSecond 2)) 1 = [] →
      ∀ e ∈ beforeHalf (tiedEvents.tdb (timelineKey "a" "m")) (itemScore (atSecond 2)) 5 1,
        e.2 ≤ itemScore (atSecond 2)) ∧
    ((afterHalf (tiedEvents.tdb (timelineKey "a" "m")) (itemScore (atSecond 2)) 1
      ++ beforeHalf (tiedEvents.tdb (timelineKey "a" "m")) (itemScore (atSecond 2)) 5 1).map
        Prod.fst).Nodup ∧
    List.Pairwise (fun a b : Int => a ≥ b)
      ((afterHalf (tiedEvents.tdb (timelineKey "a" "m")) (itemScore (atSecond 2)) 1
        ++ beforeHalf (tiedEvents.tdb (timelineKey "a" "m")) (itemScore (atSecond 2)) 5 1).map
          Prod.snd) ∧
    List.Pairwise (fun a b : Int => a ≥ b)
      ((tiedEvents.TimelineRange allUp "a" "m" (atSecond 2) 5 1).1.map (fun it => it.Ts)) :=
  C12_boundary_exact_concatenation tiedEvents allUp "a" "m" (atSecond 2) 5 1 (by decide)
    (by decide) (by decide) (by decide)

/-! ### The operations on a sorted set keep its members distinct -/

theorem zadd_wf (z : ZSet) (sc : Int) (m : String) (h : z.WF) : (zadd z sc m).WF := by
  unfold ZSet.WF zadd at *
  rw [List.map_cons, List.nodup_cons]
  refine ⟨?_, List.Nodup.sublist ((List.filter_sublist _).map _) h⟩
  intro hm
  obtain ⟨e, he, hem⟩ := List.mem_map.mp hm
  have := (List.mem_filter.mp he).2
  simp [hem] at this

theorem zrem_wf (z : ZSet) (m : String) (h : z.WF) : (zrem z m).WF :=
  List.Nodup.sublist ((List.filter_sublist _).map _) h

theorem zunionMax_wf (a b : ZSet) (ha : a.WF) (hb : b.WF) : (zunionMax a b).WF := by
  unfold ZSet.WF zunionMax at *
  rw [List.map_append, List.map_map, List.nodup_append]
  refine ⟨?_, List.Nodup.sublist ((List.filter_sublist _).map _) hb, ?_⟩
  · have : (Prod.fst ∘ fun e : String × Int => (e.1, match zscore b e.1 with
        | some t => max e.2 t
        | none => e.2)) = Prod.fst := rfl
    rw [this]; exact ha
  · intro m hma hmb
    obtain ⟨x, hx, hxm⟩ := List.mem_map.mp hma
    obtain ⟨y, hy, hym⟩ := List.mem_map.mp hmb
    have hnone := (List.mem_filter.mp hy).2
    have hx' : x.1 = m := hxm
    have : zscore a y.1 = none := by simpa using hnone
    rw [hym] at this
    exact (zscore_eq_none_iff a m).mp this x hx hx'

/-! ## Claims on reading an item -/

/-- C13, as stated, fails: `Item` returns an item and no error for bytes that
do not deserialize as an item.  In `garbledBody` the bytes under
`itemKey("x")` are not JSON and `Item` returns the zero item; in
`partlyDecodedBody` they are an object with a field of the wrong type and
`Item` returns the item with the fields that could be decoded; in
`counterUnderItemKey` the key of the item id `itemseq` holds the sequence
counter of the profile `item` and `Item` returns the zero item. -/
theorem C13_counterexample :
    (garbledBody.idb (itemKey "x") = some (.raw "not json" Item.zero) ∧
      garbledBody.Item false "x" = .ok Item.zero) ∧
    (partlyDecodedBody.Item false "x" = .ok { Item.zero with Id := "x", Text := "hi" }) ∧
    (counterUnderItemKey.idb (itemKey "itemseq") = some (.int 1) ∧
      counterUnderItemKey.Item false "itemseq" = .ok Item.zero) :=
  ⟨⟨by decide, rfl⟩, rfl, by decide, rfl⟩

/-- C13, amended: `Item(id)` returns the error of the reply to `GET` and no
item when that reply is not OK, which for a key with no body, the command being
answered, is the `NotFound` error; when a body is stored under `itemKey(id)`
and the command is answered it returns an item and no error, whether or not the
stored bytes deserialize: the error of `json.Unmarshal` is discarded, and for
bytes that do not deserialize the item returned is what `json.Unmarshal` left
behind.  So it returns an item with no error exactly when the command is
answered and a body is stored. -/
theorem C13_item_reads_any_body (s : RedisStore) (down : Bool) (id : String) :
    (∀ e, s.GET down (itemKey id) = .error e → s.Item down id = .error e) ∧
    (down = false → s.idb (itemKey id) = none → s.Item down id = .error .notFound) ∧
    (∀ v, down = false → s.idb (itemKey id) = some v → s.Item down id = .ok v.toItem) ∧
    (∀ bytes decoded, down = false → s.idb (itemKey id) = some (.raw bytes decoded) →
      s.Item down id = .ok decoded) ∧
    ((∃ item, s.Item down id = .ok item) ↔ (down = false ∧ s.idb (itemKey id) ≠ none)) := by
  refine ⟨fun e he => ?_, fun hd hn => ?_, fun v hd hv => ?_,
    fun bytes decoded hd hv => ?_, ?_⟩
  · simp [RedisStore.Item, he]
  · simp [RedisStore.Item, RedisStore.GET, hd, hn]
  · simp [RedisStore.Item, RedisStore.GET, hd, hv]
  · simp [RedisStore.Item, RedisStore.GET, hd, hv, Value.toItem]
  · cases down
    · cases hv : s.idb (itemKey id) with
      | none => simp [RedisStore.Item, RedisStore.GET, hv]
      | some v => simp [RedisStore.Item, RedisStore.GET, hv]
    · simp [RedisStore.Item, RedisStore.GET]

/-- C13 amended, at concrete stores: no body in `emptyStore`, bytes that are
not JSON in `garbledBody`, an object with a field of the wrong type in
`partlyDecodedBody`, the body of `x` in `afterCreateX`. -/
theorem C13_item_reads_any_body_witness :
    emptyStore.Item false "x" = .error .notFound ∧
    garbledBody.Item false "x" = .ok Item.zero ∧
    partlyDecodedBody.Item false "x" = .ok { Item.zero with Id := "x", Text := "hi" } ∧
    afterCreateX.Item false "x"
      = .ok (Value.item (createdItem (atSecond 100) "a" (atSecond 0) "hello" "" "x")).toItem :=
  ⟨(C13_item_reads_any_body emptyStore false "x").2.1 rfl rfl,
   (C13_item_reads_any_body garbledBody false "x").2.2.2.1 "not json" Item.zero rfl
     (by decide),
   (C13_item_reads_any_body partlyDecodedBody false "x").2.2.2.1 _ _ rfl rfl,
   (C13_item_reads_any_body afterCreateX false "x").2.2.1
     (Value.item (createdItem (atSecond 100) "a" (atSecond 0) "hello" "" "x")) rfl (by decide)⟩

end Datastore
